import Mathlib

/-!
Shallow embedding of `scripts/timetable_parser.py` (the timetable extraction
engine) together with `normalize_space` from `scripts/pipeline_utils.py`.

Conventions of the embedding:
- Python strings are Lean `String`s; most character-level work happens on
  `List Char`.
- Python's `re` patterns are translated, one by one, into dedicated
  recognizer/scanner functions.  Each such function carries a doc comment
  naming the regular expression it implements; the translation follows the
  leftmost-match, greedy-with-backtracking semantics of `re` restricted to the
  concrete pattern.  `\s`, `\w` and `\b` are interpreted over their ASCII
  meaning (the inputs of interest are ASCII once diacritics are folded).
- Python `dict`s are association lists (`List (key × value)`); only
  lookup/update/delete and value iteration are ever used by the source.
- BeautifulSoup is abstracted away: an HTML document is embedded as the list
  of nodes that the source inspects (headings/paragraph-like nodes and
  tables), a table as its rows of cells plus the caption text and the texts of
  its preceding siblings - exactly the observations `timetable_parser.py`
  makes of the soup.
- `int(...)` on an attribute string is embedded as `pyToInt` below.
-/

namespace Timetable

/-- Python `\s` (ASCII range): the whitespace characters recognised by
`str.strip()` / `re.split` in the source. -/
def pyWs (c : Char) : Bool :=
  c == ' ' || c == '\t' || c == '\n' || c == '\r' || c == '\x0b' || c == '\x0c'

/-- Python `\w` (ASCII range): word characters, used for `\b` boundaries and
for the character class of numeric-token extraction. -/
def isWordChar (c : Char) : Bool :=
  c.isAlphanum || c == '_'

/-- `str.strip()`: drop ASCII whitespace from both ends. -/
def pyStrip (l : List Char) : List Char :=
  ((l.dropWhile pyWs).reverse.dropWhile pyWs).reverse

/-- `str.strip(chars)`: drop the given characters from both ends. -/
def pyStripChars (cs : List Char) (l : List Char) : List Char :=
  ((l.dropWhile (cs.contains ·)).reverse.dropWhile (cs.contains ·)).reverse

/-- Helper for `str.splitlines()`: accumulate the current line, splitting at
`\r\n`, `\n`, `\r`, `\x0b`, `\x0c`. -/
def splitlinesAux : List Char → List Char → List (List Char)
  | [], acc => [acc.reverse]
  | '\r' :: '\n' :: rest, acc =>
      acc.reverse :: (if rest.isEmpty then [] else splitlinesAux rest [])
  | c :: rest, acc =>
      if c == '\n' || c == '\r' || c == '\x0b' || c == '\x0c' then
        acc.reverse :: (if rest.isEmpty then [] else splitlinesAux rest [])
      else splitlinesAux rest (c :: acc)

/-- `str.splitlines()` (restricted to the ASCII line terminators). -/
def splitlinesPy (l : List Char) : List (List Char) :=
  match l with
  | [] => []
  | l => splitlinesAux l []

/-- `re.sub(r"\s+", " ", ·)`: collapse every whitespace run to one space.
The boolean records whether the previous character was whitespace. -/
def collapseWsAux : Bool → List Char → List Char
  | _, [] => []
  | prevWs, c :: rest =>
      if pyWs c then
        if prevWs then collapseWsAux true rest else ' ' :: collapseWsAux true rest
      else c :: collapseWsAux false rest

/-- `re.sub(r"[ \t]+", " ", ·)`: collapse space/tab runs to one space. -/
def collapseSpaceTabAux : Bool → List Char → List Char
  | _, [] => []
  | prevWs, c :: rest =>
      if c == ' ' || c == '\t' then
        if prevWs then collapseSpaceTabAux true rest
        else ' ' :: collapseSpaceTabAux true rest
      else c :: collapseSpaceTabAux false rest

/-- `pipeline_utils.normalize_space`: strip, then either collapse all
whitespace runs to single spaces, or (with `keep_newlines`) normalise each
line separately, dropping blank lines. -/
def normalize_space (value : String) (keep_newlines : Bool := false) : String :=
  let stripped := pyStrip value.data
  if keep_newlines then
    let lines := (splitlinesPy stripped).map fun line =>
      pyStrip (collapseSpaceTabAux false line)
    String.mk (List.intercalate ['\n'] (lines.filter fun line => !line.isEmpty))
  else
    String.mk (collapseWsAux false stripped)

/-- `_fold`: NFKD-decompose, drop combining marks, lowercase.  Embedded as a
character map handling the diacritics that occur in Romanian/Hungarian
timetable text; every other character is ASCII-lowercased. -/
def foldChar (c : Char) : Char :=
  if c == 'ă' || c == 'Ă' || c == 'â' || c == 'Â' || c == 'á' || c == 'Á' then 'a'
  else if c == 'î' || c == 'Î' || c == 'í' || c == 'Í' then 'i'
  else if c == 'ș' || c == 'Ș' || c == 'ş' || c == 'Ş' then 's'
  else if c == 'ț' || c == 'Ț' || c == 'ţ' || c == 'Ţ' then 't'
  else if c == 'é' || c == 'É' || c == 'è' || c == 'È' || c == 'ê' || c == 'Ê' then 'e'
  else if c == 'ö' || c == 'Ö' || c == 'ő' || c == 'Ő' || c == 'ó' || c == 'Ó' then 'o'
  else if c == 'ü' || c == 'Ü' || c == 'ű' || c == 'Ű' || c == 'ú' || c == 'Ú' then 'u'
  else c.toLower

/-- `_fold` on a character list. -/
def foldChars (l : List Char) : List Char := l.map foldChar

/-- `_fold(value)` as used in the source (it is always applied to strings). -/
def fold (value : String) : String := String.mk (foldChars value.data)

/-- Case-insensitive character comparison (ASCII lowering, as `re.IGNORECASE`
behaves on the ASCII patterns of the source). -/
def charEqCI (a b : Char) : Bool := a.toLower == b.toLower

/-- Match a literal (case-sensitively); on success return the remaining
suffix. -/
def litMatch : List Char → List Char → Option (List Char)
  | [], rest => some rest
  | _, [] => none
  | p :: ps, c :: cs => if p == c then litMatch ps cs else none

/-- Match a literal case-insensitively; on success return the remaining
suffix. -/
def litMatchCI : List Char → List Char → Option (List Char)
  | [], rest => some rest
  | _, [] => none
  | p :: ps, c :: cs => if charEqCI p c then litMatchCI ps cs else none

/-- `\b` immediately before the current position, given the previous
character (if any): holds when there is no previous word character.  (All
uses below place a word character right after the boundary.) -/
def boundaryBefore : Option Char → Bool
  | none => true
  | some c => !isWordChar c

/-- `\b` at the position after a match whose last consumed character was a
word character: the next character must be absent or a non-word character. -/
def boundaryAfterWord : List Char → Bool
  | [] => true
  | c :: _ => !isWordChar c

/-- `re.search(rf"\b{word}\b", text)` for a word made of word characters:
scan every position, requiring word boundaries on both sides. -/
def searchWordAux (word : List Char) : Option Char → List Char → Bool
  | _, [] => word.isEmpty
  | prev, text@(c :: rest) =>
      (boundaryBefore prev &&
        (match litMatch word text with
          | some after => boundaryAfterWord after
          | none => false)) ||
      searchWordAux word (some c) rest

/-- `re.search(rf"\b{word}\b", text) is not None` (word = word characters). -/
def searchWord (word : List Char) (text : List Char) : Bool :=
  searchWordAux word none text

/-- Plain substring test, Python's `needle in haystack`. -/
def containsSub (needle : List Char) (hay : List Char) : Bool :=
  match hay with
  | [] => needle.isEmpty
  | _ :: rest => (litMatch needle hay).isSome || containsSub needle rest

/-- Maximal word-character runs of a text, in order (the candidates a
`\b...\b`-delimited token pattern can match). -/
def wordRunsAux : List Char → List Char → List (List Char)
  | [], cur => if cur.isEmpty then [] else [cur.reverse]
  | c :: rest, cur =>
      if isWordChar c then wordRunsAux rest (c :: cur)
      else if cur.isEmpty then wordRunsAux rest cur
      else cur.reverse :: wordRunsAux rest []

/-- All maximal word-character runs of a text. -/
def wordRuns (l : List Char) : List (List Char) := wordRunsAux l []

/-- Digits to a number (the runs fed to this are all-digit). -/
def digitsToNat (l : List Char) : Nat :=
  l.foldl (fun n c => n * 10 + (c.toNat - 48)) 0

/-- `GROUP_RE = \b(\d{3,4})\b` via `findall`: a match is exactly a maximal
word-character run that consists of three or four digits. -/
def groupFindall (text : List Char) : List Int :=
  (wordRuns text).filterMap fun run =>
    if run.all Char.isDigit && (run.length == 3 || run.length == 4) then
      some (Int.ofNat (digitsToNat run))
    else none

/-- Greedy whitespace run: `\s*` (returns the consumed run and the rest). -/
def wsSpan (l : List Char) : List Char × List Char :=
  (l.takeWhile pyWs, l.dropWhile pyWs)

/-- `\d{1,2}` alternatives at the current position, in greedy preference
order (two digits first, then one). -/
def d12 : List Char → List (List Char × List Char)
  | a :: b :: rest =>
      if a.isDigit && b.isDigit then [([a, b], rest), ([a], b :: rest)]
      else if a.isDigit then [([a], b :: rest)]
      else []
  | [a] => if a.isDigit then [([a], [])] else []
  | [] => []

/-- `(?::\d{2})?` alternatives at the current position, greedy order
(present first, then absent). -/
def optColon2 (l : List Char) : List (List Char × List Char) :=
  match l with
  | ':' :: a :: b :: rest =>
      if a.isDigit && b.isDigit then [([':', a, b], rest), ([], l)] else [([], l)]
  | _ => [([], l)]

/-- All ways `TIME_RE`'s body
`\d{1,2}(?::\d{2})?\s*[-–]\s*\d{1,2}(?::\d{2})?` followed by `\b` can match
at the current position, in backtracking preference order; each result is
(matched text, rest).  The caller checks the leading `\b`. -/
def timeCandsAt (l : List Char) : List (List Char × List Char) :=
  (d12 l).flatMap fun p1 =>
    (optColon2 p1.2).flatMap fun p2 =>
      let w1 := wsSpan p2.2
      match w1.2 with
      | d :: r4 =>
          if d == '-' || d == '–' then
            let w2 := wsSpan r4
            (d12 w2.2).flatMap fun p3 =>
              (optColon2 p3.2).flatMap fun p4 =>
                if boundaryAfterWord p4.2 then
                  [(p1.1 ++ p2.1 ++ w1.1 ++ [d] ++ w2.1 ++ p3.1 ++ p4.1, p4.2)]
                else []
          else []
      | [] => []

/-- `TIME_RE.search`: leftmost match of the time-range pattern, returning
capture group 1 (the whole time range). -/
def timeSearchAux : Option Char → List Char → Option (List Char)
  | _, [] => none
  | prev, text@(c :: rest) =>
      match (if boundaryBefore prev then (timeCandsAt text).head? else none) with
      | some m => some m.1
      | none => timeSearchAux (some c) rest

/-- `TIME_RE.search(text)` returning group 1. -/
def timeSearch (text : List Char) : Option (List Char) :=
  timeSearchAux none text

/-- `TIME_RE.fullmatch(text) is not None`: some backtracking alternative of
the pattern consumes the whole text. -/
def timeFullmatch (text : List Char) : Bool :=
  (timeCandsAt text).any fun m => m.2.isEmpty

/-- `normalize_time`: strip, remove spaces, replace the first `-`/`–` with
`–`. -/
def replaceFirstDash : List Char → List Char
  | [] => []
  | c :: rest => if c == '-' || c == '–' then '–' :: rest else c :: replaceFirstDash rest

/-- `normalize_time(value)`. -/
def normalize_time (value : String) : String :=
  String.mk (replaceFirstDash ((pyStrip value.data).filter (· != ' ')))

/-- `DAY_ORDER`. -/
def DAY_ORDER : List String :=
  ["monday", "tuesday", "wednesday", "thursday", "friday"]

/-- `DAY_ALIASES`, in the source's insertion order (which is the order the
aliases are tried by `normalize_day`). -/
def DAY_ALIASES : List (String × String) :=
  [("luni", "monday"), ("monday", "monday"), ("hetfo", "monday"),
   ("marti", "tuesday"), ("marți", "tuesday"), ("marţi", "tuesday"),
   ("tuesday", "tuesday"), ("kedd", "tuesday"),
   ("miercuri", "wednesday"), ("wednesday", "wednesday"), ("szerda", "wednesday"),
   ("joi", "thursday"), ("thursday", "thursday"), ("csutortok", "thursday"),
   ("vineri", "friday"), ("friday", "friday"), ("pentek", "friday")]

/-- `normalize_day`: fold and whitespace-normalise, then return the canonical
day of the first alias found as a `\b`-delimited word. -/
def normalize_day (value : String) : Option String :=
  let folded := foldChars (normalize_space value).data
  (DAY_ALIASES.find? fun a => searchWord a.1.data folded).map (·.2)

/-- `TITLE_RE.search`: `\b(?:prof\.?|asist\.?|conf\.?|lect\.?|dr\.?)`,
case-insensitive, no trailing boundary (so the optional dot never affects
whether a match exists). -/
def titleSearchAux : Option Char → List Char → Bool
  | _, [] => false
  | prev, text@(c :: rest) =>
      (boundaryBefore prev &&
        (["prof", "asist", "conf", "lect", "dr"].any fun w =>
          (litMatchCI w.data text).isSome)) ||
      titleSearchAux (some c) rest

/-- `TITLE_RE.search(text) is not None`. -/
def titleSearch (text : List Char) : Bool :=
  titleSearchAux none text

/-- The alternatives of the room-keyword group
`(?:sala|room|amf(?:iteatru)?|aula|lab(?:orator)?)` in backtracking
preference order. -/
def roomKeywordAlts : List (List Char) :=
  ["sala", "room", "amfiteatru", "amf", "aula", "laborator", "lab"].map (·.data)

/-- `ROOM_KEYWORD_RE.search`: one of the room keywords as a `\b`-delimited
word, case-insensitive. -/
def roomKeywordSearchAux : Option Char → List Char → Bool
  | _, [] => false
  | prev, text@(c :: rest) =>
      (boundaryBefore prev &&
        (roomKeywordAlts.any fun w =>
          match litMatchCI w text with
          | some after => boundaryAfterWord after
          | none => false)) ||
      roomKeywordSearchAux (some c) rest

/-- `ROOM_KEYWORD_RE.search(text) is not None`. -/
def roomKeywordSearch (text : List Char) : Bool :=
  roomKeywordSearchAux none text

/-- The character class of `ROOM_CAPTURE_RE`'s capture and of
`INLINE_ENTRY_RE`'s room group (both are the same set: ASCII letters,
digits, dot, underscore, slash, dash). -/
def isRoomChar (c : Char) : Bool :=
  (c.isAlpha && c.toNat < 128) || c.isDigit || c == '.' || c == '_' || c == '/' || c == '-'

/-- After a room keyword: optional whitespace, an optional `:` or `-`
separator (tried greedily), optional whitespace, then a nonempty greedy run
of room-class characters as capture group 1. -/
def roomCaptureTail (rest : List Char) : Option (List Char) :=
  let afterWs := (wsSpan rest).2
  let tryFrom : List Char → Option (List Char) := fun l =>
    let l2 := (wsSpan l).2
    let run := l2.takeWhile isRoomChar
    if run.isEmpty then none else some run
  match afterWs with
  | c :: r =>
      if c == ':' || c == '-' then
        match tryFrom r with
        | some g => some g
        | none => tryFrom afterWs
      else tryFrom afterWs
  | [] => none

/-- `ROOM_CAPTURE_RE.search`: room keyword (no trailing boundary) followed by
an optional separator and a nonempty room-class capture. -/
def roomCaptureAux : Option Char → List Char → Option (List Char)
  | _, [] => none
  | prev, text@(c :: rest) =>
      match
        (if boundaryBefore prev then
          roomKeywordAlts.firstM fun w =>
            match litMatchCI w text with
            | some after => roomCaptureTail after
            | none => none
        else none) with
      | some g => some g
      | none => roomCaptureAux (some c) rest

/-- `ROOM_CAPTURE_RE.search(text)`, returning capture group 1. -/
def roomCapture (text : List Char) : Option (List Char) :=
  roomCaptureAux none text

/-- `str.split()` (no argument): whitespace-separated words, no empties. -/
def pySplitWs (l : List Char) : List (List Char) :=
  wordsAux l []
where
  wordsAux : List Char → List Char → List (List Char)
    | [], cur => if cur.isEmpty then [] else [cur.reverse]
    | c :: rest, cur =>
        if pyWs c then
          if cur.isEmpty then wordsAux rest cur else cur.reverse :: wordsAux rest []
        else wordsAux rest (c :: cur)

/-- Case-insensitive substring search (`re.search` of a plain literal with
`re.IGNORECASE`). -/
def containsSubCI (needle : List Char) (hay : List Char) : Bool :=
  match hay with
  | [] => needle.isEmpty
  | _ :: rest => (litMatchCI needle hay).isSome || containsSubCI needle rest

/-- `GROUP_HEADING_RE = \bgrupa\s+(\d{3,4})\b` (IGNORECASE): match attempt at
the current position (leading boundary checked by the caller); returns the
numeric group. -/
def groupHeadingAt (text : List Char) : Option Int :=
  match litMatchCI "grupa".data text with
  | none => none
  | some r0 =>
      let ws := wsSpan r0
      if ws.1.isEmpty then none
      else
        let digits := ws.2.takeWhile Char.isDigit
        let after := ws.2.dropWhile Char.isDigit
        if (digits.length == 3 || digits.length == 4) && boundaryAfterWord after then
          some (Int.ofNat (digitsToNat digits))
        else none

/-- `GROUP_HEADING_RE.search`: leftmost occurrence, as the group number. -/
def groupHeadingSearchAux : Option Char → List Char → Option Int
  | _, [] => none
  | prev, text@(c :: rest) =>
      match (if boundaryBefore prev then groupHeadingAt text else none) with
      | some g => some g
      | none => groupHeadingSearchAux (some c) rest

/-- `_extract_group_heading(value)`: search `GROUP_HEADING_RE` and convert
the captured digits (always convertible, so the `except ValueError` branch of
the source is dead). -/
def extract_group_heading (value : String) : Option Int :=
  groupHeadingSearchAux none value.data

/-- `FORMATION_NUMERIC_RE.fullmatch`: three or four digits, optionally
followed by a slash and at least one digit. -/
def formationNumericFull (l : List Char) : Bool :=
  let digits := l.takeWhile Char.isDigit
  let rest := l.dropWhile Char.isDigit
  (digits.length == 3 || digits.length == 4) &&
    (match rest with
     | [] => true
     | '/' :: tail => !tail.isEmpty && tail.all Char.isDigit
     | _ => false)

/-- `FORMATION_TOKEN_RE.fullmatch`: one to six ASCII letters followed by up
to three digits, nothing else. -/
def formationTokenFull (l : List Char) : Bool :=
  let letters := l.takeWhile Char.isAlpha
  let rest := l.dropWhile Char.isAlpha
  1 ≤ letters.length && letters.length ≤ 6 &&
    rest.all Char.isDigit && rest.length ≤ 3

/-- `SUBGROUP_PREFIX_RE` (IGNORECASE), anchored at the start: one of
`sgr` / `subgr` / `gr`, an optional dot, optional whitespace, a nonempty run
over word characters, slash and dash, optional whitespace, a colon, optional
whitespace.  Returns the rest after the matched marker, or `none`. -/
def subgroupMarkerMatch (l : List Char) : Option (List Char) :=
  ["sgr", "subgr", "gr"].firstM fun kw =>
    match litMatchCI kw.data l with
    | none => none
    | some r0 =>
        let r1 := match r0 with
          | '.' :: r => r
          | _ => r0
        let r2 := (wsSpan r1).2
        let run := r2.takeWhile fun c => isWordChar c || c == '/' || c == '-'
        let r3 := r2.dropWhile fun c => isWordChar c || c == '/' || c == '-'
        if run.isEmpty then none
        else
          match (wsSpan r3).2 with
          | ':' :: r4 => some (wsSpan r4).2
          | _ => none

/-- `_strip_subgroup_prefix(line)` of the source:
`SUBGROUP_PREFIX_RE.sub("", normalize_space(line)).strip()`. -/
def strip_subgroup_pfx (line : String) : String :=
  let n := (normalize_space line).data
  let stripped := match subgroupMarkerMatch n with
    | some rest => rest
    | none => n
  String.mk (pyStrip stripped)

/-- `TYPE_TAG_RE.sub("", ·)`: delete every `(c)`, `(s)`, `(l)` tag
(case-insensitively). -/
def typeTagStrip : List Char → List Char
  | '(' :: c :: ')' :: rest =>
      if c.toLower == 'c' || c.toLower == 's' || c.toLower == 'l' then typeTagStrip rest
      else '(' :: typeTagStrip (c :: ')' :: rest)
  | c :: rest => c :: typeTagStrip rest
  | [] => []

/-- A `\b` between a last consumed character and the rest of the input:
exactly one side is a word character (end of input counts as non-word). -/
def boundaryMid (lastC : Char) (rest : List Char) : Bool :=
  (isWordChar lastC) != (match rest with
    | [] => false
    | c :: _ => isWordChar c)

/-- Backtracking candidates of `\s*` starting at the current position, in
greedy preference order; each is (last consumed character - defaulting to
the one consumed before the run - and the rest). -/
def wsCandsFrom (lastC : Char) (l : List Char) : List (Char × List Char) :=
  let run := l.takeWhile pyWs
  let rest := l.dropWhile pyWs
  ((List.range (run.length + 1)).reverse).map fun i =>
    (if i == 0 then lastC else run.getD (i - 1) lastC, run.drop i ++ rest)

/-- Candidates of `\s*[12]?` (greedy), as (last consumed char, rest). -/
def wsOptDigitCands (lastC : Char) (l : List Char) : List (Char × List Char) :=
  (wsCandsFrom lastC l).flatMap fun p =>
    (match p.2 with
     | c :: r => if c == '1' || c == '2' then [(c, r)] else []
     | [] => []) ++ [p]

/-- Candidates of `\s*[12]` (digit required, greedy). -/
def wsDigitCands (lastC : Char) (l : List Char) : List (Char × List Char) :=
  (wsCandsFrom lastC l).flatMap fun p =>
    match p.2 with
    | c :: r => if c == '1' || c == '2' then [(c, r)] else []
    | [] => []

/-- Candidates of a literal keyword with an optional trailing `a`
(`impar(?:a)?` / `par(?:a)?`), greedy order. -/
def kwOptACands (kw : List Char) (l : List Char) : List (Char × List Char) :=
  match litMatchCI kw l with
  | none => []
  | some r0 =>
      (match r0 with
       | 'a' :: r1 => [('a', r1)]
       | 'A' :: r1 => [('A', r1)]
       | _ => []) ++ [(kw.getLastD 'a', r0)]

/-- Match attempt, at the current position, of one alternative of the
frequency-metadata pattern
`\b(?:week\s*[12]|weekly|sapt\.?\s*[12]?|impar(?:a)?|par(?:a)?)\b`
(IGNORECASE), alternatives and backtracking in `re` preference order; the
leading boundary is checked by the caller, the trailing one here.  Returns
(last consumed char, rest). -/
def freqStripAltAt (text : List Char) : Option (Char × List Char) :=
  let cands : List (Char × List Char) :=
    (match litMatchCI "week".data text with
     | some r0 => wsDigitCands 'k' r0
     | none => []) ++
    (match litMatchCI "weekly".data text with
     | some r0 => [('y', r0)]
     | none => []) ++
    (match litMatchCI "sapt".data text with
     | some r0 =>
        (match r0 with
         | '.' :: r1 => wsOptDigitCands '.' r1
         | _ => []) ++ wsOptDigitCands 't' r0
     | none => []) ++
    kwOptACands "impar".data text ++
    kwOptACands "par".data text
  cands.find? fun p => boundaryMid p.1 p.2

/-- `re.sub` of the frequency-metadata pattern with `""`: scan positions with
their preceding character; on a match, drop it and continue after it.  The
fuel (one unit per examined position) is `length + 1`, which always
suffices. -/
def freqWordStripAux : Nat → Option Char → List Char → List Char
  | 0, _, l => l
  | _ + 1, _, [] => []
  | fuel + 1, prev, text@(c :: rest) =>
      match (if boundaryBefore prev then freqStripAltAt text else none) with
      | some p => freqWordStripAux fuel (some p.1) p.2
      | none => c :: freqWordStripAux fuel (some c) rest

/-- The frequency-metadata `re.sub` on a character list. -/
def freqWordStrip (l : List Char) : List Char :=
  freqWordStripAux (l.length + 1) none l

/-- `_strip_inline_metadata(value)`: strip the subgroup marker, delete type
tags and frequency keywords, collapse whitespace, and strip spaces/dashes
from the ends. -/
def strip_inline_metadata (value : String) : String :=
  let v1 := (strip_subgroup_pfx value).data
  let v2 := typeTagStrip v1
  let v3 := freqWordStrip v2
  let v4 := collapseWsAux false v3
  String.mk (pyStripChars [' ', '-'] v4)

/-- `_is_frequency_line(line)`: search, over the folded line, of
`\b(?:week\s*[12]|weekly|sapt|impar|par)\b`. -/
def freqLineAltAt (text : List Char) : Option (Char × List Char) :=
  let cands : List (Char × List Char) :=
    (match litMatch "week".data text with
     | some r0 => wsDigitCands 'k' r0
     | none => []) ++
    (match litMatch "weekly".data text with
     | some r0 => [('y', r0)]
     | none => []) ++
    (match litMatch "sapt".data text with
     | some r0 => [('t', r0)]
     | none => []) ++
    (match litMatch "impar".data text with
     | some r0 => [('r', r0)]
     | none => []) ++
    (match litMatch "par".data text with
     | some r0 => [('r', r0)]
     | none => [])
  cands.find? fun p => boundaryMid p.1 p.2

/-- Scan for `freqLineAltAt` at any position (with leading boundary). -/
def freqLineSearchAux : Option Char → List Char → Bool
  | _, [] => false
  | prev, text@(c :: rest) =>
      (boundaryBefore prev && (freqLineAltAt text).isSome) ||
      freqLineSearchAux (some c) rest

/-- `_is_frequency_line(line)`. -/
def is_frequency_line (line : String) : Bool :=
  freqLineSearchAux none (foldChars line.data)

/-- `_is_time_or_day_token(line)`: the whitespace-normalised line is exactly
a time range, or it resolves to a day and has at most two words. -/
def is_time_or_day_token (line : String) : Bool :=
  let cleaned := normalize_space line
  if timeFullmatch cleaned.data then true
  else (normalize_day cleaned).isSome && (pySplitWs cleaned.data).length ≤ 2

/-- `_is_formation_line(line)`: after stripping the subgroup marker and
surrounding parentheses/spaces, the text is a numeric formation token or a
short alphanumeric token that does not look like a room code. -/
def is_formation_line (line : String) : Bool :=
  let cleaned := pyStripChars ['(', ')', ' '] (strip_subgroup_pfx line).data
  if cleaned.isEmpty then false
  else if formationNumericFull cleaned then true
  else if !formationTokenFull cleaned then false
  else
    let upper := cleaned.map Char.toUpper
    if ["CR", "LAB", "AMF", "AULA", "ROOM", "SALA"].any
        (fun p => (litMatch p.data upper).isSome) then false
    else if roomCodeFull 'C' upper || roomCodeFull 'L' upper then false
    else true
where
  /-- `re.fullmatch(r"C\d+[A-Z0-9._\x2f-]*", upper)` (and the same with `L`):
  the leading letter, at least one digit, then any mix of the room-code
  characters. -/
  roomCodeFull (lead : Char) (upper : List Char) : Bool :=
    match upper with
    | c :: rest =>
        c == lead &&
          (let digits := rest.takeWhile Char.isDigit
           let tail := rest.dropWhile Char.isDigit
           !digits.isEmpty &&
             tail.all fun ch =>
               (ch.isUpper && ch.toNat < 128) || ch.isDigit || ch == '.' ||
                 ch == '_' || ch == '/' || ch == '-')
    | [] => false

/-- `_is_room_line(line)`. -/
def is_room_line (line : String) : Bool :=
  roomKeywordSearch line.data

/-- `_is_instructor_line(line)`: a title abbreviation, or (not a room line
and) at least two words of which at least two are capitalised, and not a
frequency line. -/
def is_instructor_line (line : String) : Bool :=
  if titleSearch line.data then true
  else if is_room_line line then false
  else
    let words := pySplitWs (pyStrip line.data)
    if words.length < 2 then false
    else
      let capitalized := (words.filter fun w => (w.headD ' ').isUpper).length
      decide (2 ≤ capitalized) && !is_frequency_line line

/-- `_detect_instructor(lines)`: first line with a title abbreviation, else
first instructor-looking line, stripped; else empty. -/
def detect_instructor (lines : List String) : String :=
  match lines.find? fun line => titleSearch line.data with
  | some line => String.mk (pyStrip line.data)
  | none =>
      match lines.find? fun line => is_instructor_line line with
      | some line => String.mk (pyStrip line.data)
      | none => ""

/-- `_detect_room(lines)`: keyword-anchored capture; else a keyword line;
else a lone single token that is not frequency/formation/time-or-day/title
material; else empty. -/
def detect_room (lines : List String) : String :=
  match lines.firstM fun line => roomCapture line.data with
  | some grp => String.mk (pyStrip grp)
  | none =>
      match lines.find? fun line => roomKeywordSearch line.data with
      | some line => String.mk (pyStrip line.data)
      | none =>
          match lines.firstM fun line =>
            let token := normalize_space line
            if token.isEmpty || token.data.contains ' ' then none
            else if is_frequency_line token then none
            else if is_formation_line token then none
            else if is_time_or_day_token token then none
            else if titleSearch token.data then none
            else some token with
          | some token => token
          | none => ""

/-- `_detect_course(lines)`: first line that is none of
frequency/room/instructor/formation and whose stripped form is nonempty;
otherwise first line whose stripped form is nonempty and not
formation-shaped; otherwise the placeholder. -/
def detect_course (lines : List String) : String :=
  match lines.firstM fun line =>
    if is_frequency_line line || is_room_line line || is_instructor_line line ||
        is_formation_line line then none
    else
      let cleaned := strip_inline_metadata line
      if cleaned.isEmpty then none else some cleaned with
  | some cleaned => cleaned
  | none =>
      match lines.firstM fun line =>
        let cleaned := strip_inline_metadata line
        if !cleaned.isEmpty && !is_formation_line cleaned then some cleaned
        else none with
      | some cleaned => cleaned
      | none => "Unknown"

/-- `_detect_type(text)`: parenthesised markers (on the raw text,
case-insensitive) take precedence over folded keywords; default lecture. -/
def detect_type (text : String) : String :=
  let folded := foldChars text.data
  if containsSubCI "(c)".data text.data || containsSubCI "(curs)".data text.data then "lecture"
  else if containsSubCI "(s)".data text.data || containsSubCI "(sem)".data text.data then "seminar"
  else if containsSubCI "(l)".data text.data || containsSubCI "(lab)".data text.data then "lab"
  else if searchWord "lecture".data folded || searchWord "course".data folded ||
      searchWord "curs".data folded then "lecture"
  else if searchWord "seminar".data folded then "seminar"
  else if searchWord "lab".data folded || searchWord "laborator".data folded then "lab"
  else "lecture"

/-- One alternative of a week-marker search
`\b(?:week\s*N|sapt\.?\s*N|saptamana\s*N|impar(?:a)?)\b` at the current
position, where `N` and the keyword of the last alternative are
parameters. -/
def weekMarkAltAt (digit : Char) (bare : String) (text : List Char) :
    Option (Char × List Char) :=
  let reqDigit : Char → List Char → List (Char × List Char) := fun lastC l =>
    (wsCandsFrom lastC l).flatMap fun p =>
      match p.2 with
      | c :: r => if c == digit then [(c, r)] else []
      | [] => []
  let cands : List (Char × List Char) :=
    (match litMatch "week".data text with
     | some r0 => reqDigit 'k' r0
     | none => []) ++
    (match litMatch "sapt".data text with
     | some r0 =>
        (match r0 with
         | '.' :: r1 => reqDigit '.' r1
         | _ => []) ++ reqDigit 't' r0
     | none => []) ++
    (match litMatch "saptamana".data text with
     | some r0 => reqDigit 'a' r0
     | none => []) ++
    kwOptACands bare.data text
  cands.find? fun p => boundaryMid p.1 p.2

/-- Scan of `weekMarkAltAt` over the folded text. -/
def weekMarkSearchAux (digit : Char) (bare : String) :
    Option Char → List Char → Bool
  | _, [] => false
  | prev, text@(c :: rest) =>
      (boundaryBefore prev && (weekMarkAltAt digit bare text).isSome) ||
      weekMarkSearchAux digit bare (some c) rest

/-- `_detect_frequency(text)`. -/
def detect_frequency (text : String) : String :=
  let folded := foldChars text.data
  let has_week1 := weekMarkSearchAux '1' "impar" none folded
  let has_week2 := weekMarkSearchAux '2' "par" none folded
  if has_week1 && has_week2 then "weekly"
  else if has_week1 then "week1"
  else if has_week2 then "week2"
  else if searchWord "weekly".data folded || searchWord "saptamanal".data folded then
    "weekly"
  else "weekly"

/-- A schedule entry: the dict produced by `_parse_cell_entries` /
`_parse_inline_entry_line` (and, with a day, by `_parse_group_table_rows`). -/
structure Entry where
  time : String
  frequency : String
  course : String
  type : String
  room : String
  instructor : String
deriving Repr, DecidableEq

/-- The dedup identity of an entry: the full field tuple. -/
def entryKey (e : Entry) : String × String × String × String × String × String :=
  (e.time, e.frequency, e.course, e.type, e.room, e.instructor)

/-- The optional week prefix of `INLINE_ENTRY_RE`:
`(?:(?:sapt\.?\s*[12]|week\s*[12])\s*:\s*)?` - returns the candidate rests
after consuming the prefix, in preference order (with-prefix alternatives
first; the caller appends the without-prefix rest). -/
def inlineWeekMarks (l : List Char) : List (List Char) :=
  let afterDigit : Char → List Char → List (List Char) := fun _ r =>
    -- r starts right after the required digit: `\s*:\s*`
    match (wsSpan r).2 with
    | ':' :: r2 => [(wsSpan r2).2]
    | _ => []
  let reqDigit : List Char → List (List Char) := fun r =>
    match (wsSpan r).2 with
    | c :: r2 => if c == '1' || c == '2' then afterDigit c r2 else []
    | [] => []
  (match litMatchCI "sapt".data l with
   | some r0 =>
      (match r0 with
       | '.' :: r1 => reqDigit r1
       | _ => []) ++ reqDigit r0
   | none => []) ++
  (match litMatchCI "week".data l with
   | some r0 => reqDigit r0
   | none => [])

/-- The body of `INLINE_ENTRY_RE` after the optional prefix:
lazy course text, `(` instructor `)` with no nested parens, a comma, and a
room token running to the end of the line.  Returns
(course, instructor, room). -/
def inlineBodyMatch (l : List Char) : Option (List Char × List Char × List Char) :=
  (List.range l.length).firstM fun i =>
    let courseLen := i + 1
    let course := l.take courseLen
    let rest := l.drop courseLen
    match (wsSpan rest).2 with
    | '(' :: r1 =>
        let instr := r1.takeWhile fun c => c != '(' && c != ')'
        let r2 := r1.dropWhile fun c => c != '(' && c != ')'
        if instr.isEmpty then none
        else
          match r2 with
          | ')' :: r3 =>
              (match (wsSpan r3).2 with
               | ',' :: r4 =>
                  let room := (wsSpan r4).2
                  if !room.isEmpty && room.all isRoomChar then
                    some (course, instr, room)
                  else none
               | _ => none)
          | _ => none
    | _ => none

/-- `INLINE_ENTRY_RE.match(line)`: try the week prefix greedily, then the
body; returns (course, instructor, room). -/
def inlineEntryMatch (l : List Char) : Option (List Char × List Char × List Char) :=
  (inlineWeekMarks l ++ [l]).firstM inlineBodyMatch

/-- `_parse_inline_entry_line(line, time_slot)`. -/
def parse_inline_entry_line (line : String) (time_slot : String) : Option Entry :=
  let cleaned := normalize_space line
  if cleaned.isEmpty then none
  else
    let stripped := strip_subgroup_pfx cleaned
    match inlineEntryMatch stripped.data with
    | none => none
    | some (courseRaw, instrRaw, roomRaw) =>
        let course := strip_inline_metadata (String.mk courseRaw)
        if course.isEmpty then none
        else some
          { time := time_slot
            frequency := detect_frequency stripped
            course := course
            type := detect_type stripped
            room := normalize_space (String.mk roomRaw)
            instructor := normalize_space (String.mk instrRaw) }

/-- `re.split(r"\n\x7b2,\x7d", text)`: split at runs of two or more
newlines.  `cur` is the current part (reversed), `pending` counts the
newlines seen immediately before the current position: a pending run of at
least two is a separator, a shorter one belongs to the part. -/
def splitDoubleNlAux : List Char → List Char → Nat → List (List Char)
  | [], cur, pending =>
      if 2 ≤ pending then [cur.reverse, []]
      else [(List.replicate pending '\n' ++ cur).reverse]
  | c :: rest, cur, pending =>
      if c == '\n' then splitDoubleNlAux rest cur (pending + 1)
      else if 2 ≤ pending then cur.reverse :: splitDoubleNlAux rest [c] 0
      else splitDoubleNlAux rest (c :: (List.replicate pending '\n' ++ cur)) 0

/-- `_split_cell_chunks(text)`. -/
def split_cell_chunks (text : String) : List String :=
  let parts := splitDoubleNlAux text.data [] 0
  let chunks := (parts.filter fun chunk =>
      !(normalize_space (String.mk chunk)).isEmpty).map fun chunk =>
    normalize_space (String.mk chunk) true
  if !chunks.isEmpty then chunks
  else if !(normalize_space text).isEmpty then
    [normalize_space text true]
  else []

/-- `_parse_inline_chunk(chunk, time_slot)`. -/
def parse_inline_chunk (chunk : String) (time_slot : String) : List Entry :=
  ((splitlinesPy chunk.data).map String.mk).filterMap
    fun line => parse_inline_entry_line line time_slot

/-- The dedup loop at the end of `_parse_cell_entries`: keep the first
occurrence of every key. -/
def dedupEntriesAux :
    List (String × String × String × String × String × String) → List Entry →
      List Entry
  | _, [] => []
  | seen, e :: rest =>
      if seen.contains (entryKey e) then dedupEntriesAux seen rest
      else e :: dedupEntriesAux (entryKey e :: seen) rest

/-- The line-based classification of one chunk inside `_parse_cell_entries`
(the branch taken when the inline form does not match). -/
def chunkLineEntries (chunk : String) (time_slot : String) : List Entry :=
  let lines := ((splitlinesPy chunk.data).map String.mk).filter
    fun line => !line.isEmpty
  let lines := lines.filter fun line => (normalize_day line).isNone
  let lines := lines.filter fun line => !timeFullmatch line.data
  let lines := lines.filter fun line => !is_formation_line line
  if lines.isEmpty then []
  else
    let entry : Entry :=
      { time := time_slot
        frequency := detect_frequency chunk
        course := detect_course lines
        type := detect_type chunk
        room := detect_room lines
        instructor := detect_instructor lines }
    if !entry.course.isEmpty then [entry] else []

/-- `_parse_cell_entries(text, time_slot)`. -/
def parse_cell_entries (text : String) (time_slot : String) : List Entry :=
  let text := normalize_space text true
  if text.isEmpty then []
  else if text == "-" || text == "—" then []
  else if (normalize_day text).isSome && (pySplitWs text.data).length ≤ 2 then []
  else if timeFullmatch text.data then []
  else
    let entries := (split_cell_chunks text).flatMap fun chunk =>
      let inline_entries := parse_inline_chunk chunk time_slot
      if !inline_entries.isEmpty then inline_entries
      else chunkLineEntries chunk time_slot
    dedupEntriesAux [] entries

/-- A table cell as the source observes it: its extracted text (the result
of `cell.get_text("\n", strip=True)`) and the raw `rowspan` / `colspan`
attribute values (absent, or an arbitrary string). -/
structure HtmlCell where
  text : String
  rowspan : Option String := none
  colspan : Option String := none
deriving Repr, DecidableEq

/-- A table as the source observes it: its `tr` rows of cells, the caption
text (via `get_text(" ", strip=True)`), and the texts of its preceding
siblings, nearest first (`none` for a sibling that is not a `Tag`, which
still costs a hop). -/
structure HtmlTable where
  rows : List (List HtmlCell)
  caption : Option String := none
  prevSiblings : List (Option String) := []
deriving Repr, DecidableEq

/-- The digit part of Python's `int(str)` grammar: digits with single
underscores allowed between digits. -/
def intDigitsTail : List Char → Bool
  | [] => true
  | '_' :: c :: rest => c.isDigit && intDigitsTail rest
  | c :: rest => c.isDigit && intDigitsTail rest

/-- Python `int(str)`: optional surrounding whitespace, optional sign,
then a nonempty digit sequence (underscores permitted between digits);
`none` embeds the `ValueError`. -/
def pyToInt (s : String) : Option Int :=
  let l := pyStrip s.data
  let signAndDigits : Int × List Char :=
    match l with
    | '-' :: r => (-1, r)
    | '+' :: r => (1, r)
    | _ => (1, l)
  match signAndDigits.2 with
  | [] => none
  | c :: rest =>
      if c.isDigit && intDigitsTail rest then
        some (signAndDigits.1 *
          Int.ofNat (digitsToNat ((c :: rest).filter Char.isDigit)))
      else none

/-- `max(1, int(attr))` with `1` for a missing attribute and for a
`ValueError`/`TypeError` (malformed value): the effective row/column span of
a cell in `_expand_table`. -/
def parseSpan (attr : Option String) : Nat :=
  match attr with
  | none => 1
  | some s =>
      match pyToInt s with
      | none => 1
      | some n => (max 1 n).toNat

/-- The pending-vertical-span dictionary of `_expand_table`:
column index to (remaining row count, text to repeat). -/
def Spans := List (Nat × Nat × String)

/-- Dictionary lookup on the spans association list. -/
def spansLookup : List (Nat × Nat × String) → Nat → Option (Nat × String)
  | [], _ => none
  | e :: rest, k => if e.1 = k then some e.2 else spansLookup rest k

/-- `del spans[k]`. -/
def spansErase (l : List (Nat × Nat × String)) (k : Nat) : List (Nat × Nat × String) :=
  l.filter fun e => e.1 != k

/-- `spans[k] = v`. -/
def spansSet (l : List (Nat × Nat × String)) (k : Nat) (v : Nat × String) :
    List (Nat × Nat × String) :=
  (k, v.1, v.2) :: spansErase l k

/-- The loop body of `fill_span`, with explicit fuel (one unit per loop
iteration).  The loop visits strictly increasing columns that are all keys of
the spans dictionary, so `spans.length + 1` fuel always suffices; fuel
irrelevance above that bound is proved below (`fillSpanF_fuel_irrel`). -/
def fillSpanF : Nat → List (Nat × Nat × String) → List String → Nat →
    List (Nat × Nat × String) × List String × Nat
  | 0, spans, row, col => (spans, row, col)
  | fuel + 1, spans, row, col =>
      match spansLookup spans col with
      | some rt =>
          fillSpanF fuel
            (if rt.1 ≤ 1 then spansErase spans col
             else spansSet spans col (rt.1 - 1, rt.2))
            (row ++ [rt.2]) (col + 1)
      | none => (spans, row, col)

/-- `fill_span(row, start_col)` of `_expand_table`: while the current column
has a pending vertical span, append its text, decrement it (deleting it when
exhausted), and advance.  Returns the updated spans, row and column. -/
def fillSpan (spans : List (Nat × Nat × String)) (row : List String) (col : Nat) :
    List (Nat × Nat × String) × List String × Nat :=
  fillSpanF (spans.length + 1) spans row col

/-- A recorded cell placement: text, grid row index, first occupied column,
effective row span and column span.  (Instrumentation used to state the
span-footprint property of `_expand_table`; it does not influence the
grid.) -/
structure Placement where
  text : String
  row : Nat
  col : Nat
  rows : Nat
  cols : Nat
deriving Repr, DecidableEq

/-- The inner `for _ in range(colspan)` loop of `_expand_table`: append the
text `cs` times, registering a pending vertical span at each column when the
row span exceeds one. -/
def placeCell (text : String) (rs : Nat) :
    Nat → List (Nat × Nat × String) → List String → Nat →
      List (Nat × Nat × String) × List String × Nat
  | 0, spans, row, col => (spans, row, col)
  | cs + 1, spans, row, col =>
      let spans' := if 1 < rs then spansSet spans col (rs - 1, text) else spans
      placeCell text rs cs spans' (row ++ [text]) (col + 1)

/-- The per-row traversal state of `_expand_table`, plus instrumentation:
`consumed` records the columns filled from pending spans in this row, and
`placements` the cell placements so far. -/
structure RowState where
  spans : List (Nat × Nat × String)
  row : List String
  col : Nat
  consumed : List Nat
  placements : List Placement

/-- Processing of one cell inside a row of `_expand_table`: flush pending
spans at the current column, then place the cell over its column span. -/
def rowStep (rowIdx : Nat) (st : RowState) (cell : HtmlCell) : RowState :=
  let f := fillSpan st.spans st.row st.col
  let consumed := st.consumed ++ List.range' st.col (f.2.2 - st.col)
  let text := normalize_space cell.text true
  let rs := parseSpan cell.rowspan
  let cs := parseSpan cell.colspan
  let pl := placeCell text rs cs f.1 f.2.1 f.2.2
  { spans := pl.1
    row := pl.2.1
    col := pl.2.2
    consumed := consumed
    placements := st.placements ++ [⟨text, rowIdx, f.2.2, rs, cs⟩] }

/-- One `tr` of `_expand_table`: initial flush at column 0, the cells, then
the final flush.  Returns the emitted grid row, the updated spans, the
placements of this row, and the well-formedness bit: every pending span that
was due at the start of this row was actually consumed in it. -/
def processRow (cells : List HtmlCell) (rowIdx : Nat)
    (spans0 : List (Nat × Nat × String)) :
    List String × List (Nat × Nat × String) × List Placement × Bool :=
  let f0 := fillSpan spans0 [] 0
  let init : RowState :=
    { spans := f0.1, row := f0.2.1, col := f0.2.2
      consumed := List.range' 0 f0.2.2, placements := [] }
  let st := cells.foldl (rowStep rowIdx) init
  let ff := fillSpan st.spans st.row st.col
  let consumed := st.consumed ++ List.range' st.col (ff.2.2 - st.col)
  let ok := spans0.all fun e => consumed.contains e.1
  (ff.2.1, ff.1, st.placements, ok)

/-- The row loop of `_expand_table` over all `tr`s, threading the pending
spans; also collects placements and the conjunction of the per-row
well-formedness bits. -/
def expandRowsAux :
    List (List HtmlCell) → Nat → List (Nat × Nat × String) →
      List (List String) × List Placement × Bool
  | [], _, _ => ([], [], true)
  | r :: rest, idx, spans =>
      let pr := processRow r idx spans
      let next := expandRowsAux rest (idx + 1) pr.2.1
      (pr.1 :: next.1, pr.2.2.1 ++ next.2.1, pr.2.2.2 && next.2.2)

/-- `_expand_table(table)`: expand all rows, then pad every row with empty
strings to the maximal column count. -/
def expand_table (table : HtmlTable) : List (List String) :=
  let grid := (expandRowsAux table.rows 0 []).1
  let max_cols := (grid.map List.length).foldr max 0
  grid.map fun row => row ++ List.replicate (max_cols - row.length) ""

/-- The placements recorded while expanding a table (one per source cell, in
traversal order). -/
def expandPlacements (table : HtmlTable) : List Placement :=
  (expandRowsAux table.rows 0 []).2.1

/-- Well-formedness of a table w.r.t. span expansion: during construction,
every pending vertical span is consumed in each row it is due (no row stops
short of a pending span's column, and no later cell overlaps one). -/
def expandOk (table : HtmlTable) : Bool :=
  (expandRowsAux table.rows 0 []).2.2

/-- `_extract_group_from_header(cell_text, expected_groups)`: numeric tokens
of the cell; with a nonempty expected set, the first token in the set (or
nothing); without one, a unique token (or nothing). -/
def extract_group_from_header (cell_text : String) (expected_groups : List Int) :
    Option Int :=
  let ms := groupFindall cell_text.data
  if ms.isEmpty then none
  else if !expected_groups.isEmpty then ms.find? (expected_groups.contains ·)
  else if ms.length == 1 then ms.head?
  else none

/-- `sorted(set(xs))`: insert into a strictly sorted duplicate-free list. -/
def insSorted (x : Int) : List Int → List Int
  | [] => [x]
  | y :: rest =>
      if x < y then x :: y :: rest
      else if x = y then y :: rest
      else y :: insSorted x rest

/-- `sorted(set(xs))`. -/
def dedupSort (xs : List Int) : List Int :=
  xs.foldl (fun acc x => insSorted x acc) []

/-- The per-row column-to-group mapping built inside
`_detect_group_columns`. -/
def rowGroupMapping (row : List String) (expected_set : List Int) :
    List (Nat × Int) :=
  row.enum.filterMap fun p =>
    (extract_group_from_header p.2 expected_set).map fun g => (p.1, g)

/-- `_detect_group_columns(grid, expected_groups)`: scan the first 12 rows
keeping the largest mapping (first wins ties); filter by the expected set;
if empty and an expected set exists, fall back to mapping the trailing
columns of the first row to the sorted expected groups. -/
def detect_group_columns (grid : List (List String)) (expected_groups : List Int) :
    List (Nat × Int) :=
  let expected_set := expected_groups
  let best_mapping := (grid.take 12).foldl
    (fun best row =>
      let mapping := rowGroupMapping row expected_set
      if best.length < mapping.length then mapping else best)
    []
  let best_mapping :=
    if !expected_set.isEmpty then
      best_mapping.filter fun cg => expected_set.contains cg.2
    else best_mapping
  if !best_mapping.isEmpty then best_mapping
  else if !expected_set.isEmpty && !grid.isEmpty then
    let first_row_len := (grid.headD []).length
    let sortedE := dedupSort expected_set
    let count := min sortedE.length first_row_len
    let columns := List.range' (first_row_len - count) count
    columns.zip sortedE
  else []

/-- `_extract_time(row)`: the first cell with a time-range match, normalised. -/
def extract_time (row : List String) : Option String :=
  (row.firstM fun cell => timeSearch cell.data).map fun m =>
    normalize_time (String.mk m)

/-- `re.search(rf"\b{w1}\s+{w2}\b", text)` for two literal words. -/
def searchTwoWordsAux (w1 w2 : List Char) : Option Char → List Char → Bool
  | _, [] => false
  | prev, text@(c :: rest) =>
      (boundaryBefore prev &&
        (match litMatch w1 text with
         | some r1 =>
            let ws := wsSpan r1
            !ws.1.isEmpty &&
              (match litMatch w2 ws.2 with
               | some r2 => boundaryAfterWord r2
               | none => false)
         | none => false)) ||
      searchTwoWordsAux w1 w2 (some c) rest

/-- `_header_name_to_key(value)`: recognised header tokens, searched over the
folded value in the source's order. -/
def header_name_to_key (value : String) : Option String :=
  let folded := foldChars value.data
  let sw : String → Bool := fun w => searchWord w.data folded
  if sw "ziua" || sw "day" then some "day"
  else if sw "ora" || sw "orele" || sw "time" then some "time"
  else if sw "frecventa" || sw "frequency" then some "frequency"
  else if sw "sala" || sw "room" then some "room"
  else if sw "tipul" || sw "tip" || sw "type" then some "type"
  else if sw "disciplina" || sw "materia" || sw "course" then some "course"
  else if searchTwoWordsAux "cadrul".data "didactic".data none folded ||
      searchTwoWordsAux "cadr".data "didactic".data none folded ||
      sw "instructor" || sw "profesor" then some "instructor"
  else none

/-- `tr.get_text(" ", strip=True)` then `normalize_space`, as
`_extract_table_group` applies to the first rows. -/
def rowGetText (row : List HtmlCell) : String :=
  normalize_space (String.intercalate " " (row.map (·.text)))

/-- Python `x or y` on optional group numbers (`0` is falsy). -/
def pyOrInt (a b : Option Int) : Option Int :=
  match a with
  | some v => if v = 0 then b else some v
  | none => b

/-- `_extract_table_group(table)`: the group heading found in the caption,
in one of the first three rows, or in one of the first six preceding
siblings. -/
def extract_table_group (table : HtmlTable) : Option Int :=
  match table.caption.bind fun c => extract_group_heading (normalize_space c) with
  | some g => some g
  | none =>
      match (table.rows.take 3).firstM fun row =>
          extract_group_heading (rowGetText row) with
      | some g => some g
      | none =>
          (table.prevSiblings.take 6).firstM fun sib =>
            sib.bind fun s => extract_group_heading (normalize_space s)

/-- The header mapping of one grid row inside `_parse_group_table_rows`:
first column per recognised key. -/
def headerRowMapping (row : List String) : List (String × Nat) :=
  row.enum.foldl
    (fun m p =>
      match header_name_to_key p.2 with
      | some key => if (m.lookup key).isSome then m else m ++ [(key, p.1)]
      | none => m)
    []

/-- The header-row selection loop of `_parse_group_table_rows`: among the
first four rows, the first one maximising the number of recognised header
keys (scores start at -1, so the first scanned row always becomes the
initial best). -/
def bestHeaderRow (grid : List (List String)) : Int × List (String × Nat) × Int :=
  (grid.take 4).enum.foldl
    (fun best p =>
      let mapping := headerRowMapping p.2
      if best.2.2 < Int.ofNat mapping.length then
        (Int.ofNat p.1, mapping, Int.ofNat mapping.length)
      else best)
    (-1, [], -1)

/-- Python `x or y` on strings (empty string is falsy). -/
def pyOrStr (a b : String) : String :=
  if a.isEmpty then b else a

/-- One data row of `_parse_group_table_rows`, given the header mapping:
day and time must resolve, mapped nonblank columns are taken directly, the
rest falls back to the line heuristics over the whole row. -/
def parseHeaderedRow (best_header_map : List (String × Nat)) (row : List String) :
    Option (String × Entry) :=
  match best_header_map.lookup "day", best_header_map.lookup "time" with
  | some day_col, some time_col =>
      if day_col ≥ row.length || time_col ≥ row.length then none
      else
        match normalize_day (row.getD day_col "") with
        | none => none
        | some day =>
            match timeSearch (row.getD time_col "").data with
            | none => none
            | some time_match =>
                let time_slot := normalize_time (String.mk time_match)
                let getMapped : String → String := fun key =>
                  match best_header_map.lookup key with
                  | some c => if c < row.length then row.getD c "" else ""
                  | none => ""
                let row_blob := String.intercalate " " (row.filter fun c => !c.isEmpty)
                let lines_for_fallback := row.filter fun c => !c.isEmpty
                let entry : Entry :=
                  { time := time_slot
                    frequency := detect_frequency (pyOrStr (getMapped "frequency") row_blob)
                    course := pyOrStr (normalize_space (getMapped "course"))
                      (detect_course lines_for_fallback)
                    type := detect_type (pyOrStr (getMapped "type") row_blob)
                    room := pyOrStr (normalize_space (getMapped "room"))
                      (detect_room lines_for_fallback)
                    instructor := pyOrStr (normalize_space (getMapped "instructor"))
                      (detect_instructor lines_for_fallback) }
                if !entry.course.isEmpty then some (day, entry) else none
  | _, _ => none

/-- `_parse_group_table_rows(grid)`: pick the best header row among the
first four; reject unless it recognises both day and time; then classify
every following row. -/
def parse_group_table_rows (grid : List (List String)) :
    List (String × Entry) × Int :=
  let best := bestHeaderRow grid
  let best_header_idx := best.1
  let best_header_map := best.2.1
  if best_header_map.isEmpty then ([], -1)
  else if (best_header_map.lookup "day").isNone ||
      (best_header_map.lookup "time").isNone then ([], -1)
  else
    let entries := (grid.drop (best_header_idx.toNat + 1)).filterMap
      (parseHeaderedRow best_header_map)
    (entries, best_header_idx)

/-- A document node as walked by `_parse_group_section_layout`: either a
heading-like element (`h1`..`h6`, `p`, `div`, `strong`, `b`) with its
`get_text(" ", strip=True)` text, or a table. -/
inductive Node where
  | elem (text : String)
  | table (t : HtmlTable)
deriving Repr, DecidableEq

/-- An HTML document: the nodes of interest in document order. -/
structure HtmlDoc where
  nodes : List Node
deriving Repr, DecidableEq

/-- `soup.find_all("table")`. -/
def docTables (doc : HtmlDoc) : List HtmlTable :=
  doc.nodes.filterMap fun n =>
    match n with
    | .table t => some t
    | .elem _ => none

/-- The text of a whole table (`table.get_text(" ", strip=True)`): caption
followed by every cell text. -/
def tableGetText (table : HtmlTable) : String :=
  String.intercalate " "
    ((match table.caption with
      | some c => [c]
      | none => []) ++ (table.rows.flatMap fun row => row.map (·.text)))

/-- `_main_table_score(table)`: 10 per day-alias substring hit, plus the
number of numeric group tokens capped at 40, plus the row count. -/
def main_table_score (table : HtmlTable) : Nat :=
  let text := foldChars (tableGetText table).data
  let day_hits := (DAY_ALIASES.filter fun a => containsSub a.1.data text).length
  let group_hits := (groupFindall text).length
  day_hits * 10 + min group_hits 40 + table.rows.length

/-- `_select_main_table(soup)`: the highest-scoring table (Python `max`
keeps the first of equal scores); `none` embeds the raised
`TimetableParseError` when the page has no table. -/
def select_main_table (doc : HtmlDoc) : Option HtmlTable :=
  match docTables doc with
  | [] => none
  | t :: ts =>
      some (ts.foldl (fun best c =>
        if main_table_score best < main_table_score c then c else best) t)

/-- The structural parse failure (`TimetableParseError`). -/
structure TimetableParseError where
  message : String
deriving Repr, DecidableEq

/-- `ParsedTimetable`: group to day schedules (each day with its entries,
weekday order, nonempty only), plus the detected groups. -/
structure ParsedTimetable where
  by_group : List (Int × List (String × List Entry))
  detected_groups : List Int
deriving Repr, DecidableEq

/-- Append entries to the per-day bucket of a day-keyed association list
(`defaultdict(list)` extension). -/
def alExtend (m : List (String × List Entry)) (k : String) (es : List Entry) :
    List (String × List Entry) :=
  if (m.lookup k).isSome then
    m.map fun p => if p.1 = k then (p.1, p.2 ++ es) else p
  else m ++ [(k, es)]

/-- Append entries to a (group, day) bucket of the nested grouped-entries
dictionary, creating the group key if needed (`defaultdict` semantics of
`_parse_group_section_layout`). -/
def gExtend (m : List (Int × List (String × List Entry))) (g : Int) (day : String)
    (es : List Entry) : List (Int × List (String × List Entry)) :=
  if (m.lookup g).isSome then
    m.map fun p => if p.1 = g then (p.1, alExtend p.2 day es) else p
  else m ++ [(g, alExtend [] day es)]

/-- `_grouped_to_days(grouped_entries, target_groups)`: for each target
group, the nonempty weekdays in Monday-to-Friday order. -/
def grouped_to_days (grouped : List (Int × List (String × List Entry)))
    (target_groups : List Int) : List (Int × List (String × List Entry)) :=
  target_groups.map fun group =>
    (group, DAY_ORDER.filterMap fun day =>
      let day_entries := (((grouped.lookup group).getD []).lookup day).getD []
      if day_entries.isEmpty then none else some (day, day_entries))

/-- The walking state of `_parse_group_section_layout`. -/
structure SectionState where
  current_group : Option Int
  grouped : List (Int × List (String × List Entry))
  detected : List Int

/-- One node step of `_parse_group_section_layout`. -/
def sectionStep (expected_set : List Int) (st : SectionState) (node : Node) :
    SectionState :=
  match node with
  | .elem text =>
      match extract_group_heading (normalize_space text) with
      | some g => { st with current_group := some g }
      | none => st
  | .table t =>
      match pyOrInt (extract_table_group t) st.current_group with
      | none => st
      | some table_group =>
          if !expected_set.isEmpty && !expected_set.contains table_group then st
          else
            let grid := expand_table t
            if grid.isEmpty then st
            else
              let parsed_rows := (parse_group_table_rows grid).1
              if parsed_rows.isEmpty then st
              else
                { st with
                  detected :=
                    if st.detected.contains table_group then st.detected
                    else st.detected ++ [table_group]
                  grouped := parsed_rows.foldl
                    (fun m de => gExtend m table_group de.1 [de.2]) st.grouped }

/-- `_parse_group_section_layout(soup, expected_groups)`. -/
def parse_group_section_layout (doc : HtmlDoc) (expected_groups : List Int) :
    Option ParsedTimetable :=
  let expected_set := expected_groups
  let st := doc.nodes.foldl (sectionStep expected_set)
    { current_group := none, grouped := [], detected := [] }
  if st.detected.isEmpty then none
  else
    let target_groups :=
      dedupSort (if !expected_set.isEmpty then expected_set else st.detected)
    some
      { by_group := grouped_to_days st.grouped target_groups
        detected_groups := dedupSort st.detected }

/-- The row-walk state of `_parse_columnar_layout`. -/
structure ColumnarState where
  current_day : Option String
  grouped : List (Int × List (String × List Entry))

/-- One grid-row step of the columnar row walk. -/
def columnarStep (group_columns : List (Nat × Int)) (st : ColumnarState)
    (row : List String) : ColumnarState :=
  let row_day := row.firstM normalize_day
  let current_day :=
    match row_day with
    | some d => some d
    | none => st.current_day
  match current_day with
  | none => { st with current_day := current_day }
  | some day =>
      match extract_time row with
      | none => { st with current_day := current_day }
      | some time_slot =>
          let grouped := group_columns.foldl
            (fun m cg =>
              if (m.lookup cg.2).isNone then m
              else if cg.1 ≥ row.length then m
              else
                let parsed_entries := parse_cell_entries (row.getD cg.1 "") time_slot
                if !parsed_entries.isEmpty then gExtend m cg.2 day parsed_entries
                else m)
            st.grouped
          { current_day := current_day, grouped := grouped }

/-- `_parse_columnar_layout(soup, expected_groups)`. -/
def parse_columnar_layout (doc : HtmlDoc) (expected_groups : List Int) :
    Except TimetableParseError ParsedTimetable :=
  match select_main_table doc with
  | none => .error ⟨"No table was found on the source page."⟩
  | some table =>
      let grid := expand_table table
      if grid.isEmpty then .error ⟨"Timetable table is empty."⟩
      else
        let group_columns := detect_group_columns grid expected_groups
        if group_columns.isEmpty then
          .error ⟨"Could not detect group columns in timetable table."⟩
        else
          let detected_groups := dedupSort (group_columns.map (·.2))
          let target_groups :=
            dedupSort (if !expected_groups.isEmpty then expected_groups
              else detected_groups)
          let grouped0 := target_groups.map fun g =>
            (g, ([] : List (String × List Entry)))
          let st := grid.foldl (columnarStep group_columns)
            { current_day := none, grouped := grouped0 }
          .ok
            { by_group := grouped_to_days st.grouped target_groups
              detected_groups := detected_groups }

/-- `parse_timetable_html(html, expected_groups)`: sectioned layout first,
columnar layout as the fallback. -/
def parse_timetable_html (doc : HtmlDoc) (expected_groups : List Int) :
    Except TimetableParseError ParsedTimetable :=
  match parse_group_section_layout doc expected_groups with
  | some grouped_layout => .ok grouped_layout
  | none => parse_columnar_layout doc expected_groups

/-! Statement-level definitions and concrete fixtures used by the
verification theorems below. -/

/-- The raw (unpadded) column maximum of a table's grid - the width every
padded row of `expand_table` must have. -/
def gridWidth (t : HtmlTable) : Nat :=
  ((expandRowsAux t.rows 0 []).1.map List.length).foldr max 0

/-- The span-footprint property of a grid: every position inside the
rectangle of a recorded placement (row span by column span, clipped to the
grid) carries the origin cell's text. -/
def SpanFillStmt (t : HtmlTable) : Prop :=
  ∀ p ∈ expandPlacements t, ∀ i < p.row + p.rows, ∀ j < p.col + p.cols,
    p.row ≤ i → p.col ≤ j → i < (expand_table t).length →
      ((expand_table t).getD i []).getD j "" = p.text

/-- A page-level failure condition: no table at all, or the selected main
table has an empty grid or unresolvable group columns. -/
def pageLevelFailure (doc : HtmlDoc) (expected_groups : List Int) : Prop :=
  docTables doc = [] ∨
    ∃ t, select_main_table doc = some t ∧
      (expand_table t = [] ∨ detect_group_columns (expand_table t) expected_groups = [])

/-- A grid row recognises both a day header token and a time header token. -/
def rowRecognizesDayTime (row : List String) : Prop :=
  (∃ cell ∈ row, header_name_to_key cell = some "day") ∧
    ∃ cell ∈ row, header_name_to_key cell = some "time"

/-- Claim C3's property of one parse result: the detected groups are exactly
those with at least one entry row in the output. -/
def claimC3At (r : ParsedTimetable) : Prop :=
  ∀ g : Int, g ∈ r.detected_groups ↔ ∃ gd ∈ r.by_group, gd.1 = g ∧ gd.2 ≠ []

/-- The line filter of `_detect_course`'s first loop. -/
def courseSkip (line : String) : Bool :=
  is_frequency_line line || is_room_line line || is_instructor_line line ||
    is_formation_line line

/-- Shorthand for a plain cell without span attributes. -/
def cellOf (t : String) : HtmlCell := { text := t }

/-- C1 counterexample table: a pending row span at column 1 followed by an
empty `tr` (so the span is never flushed into the second row). -/
def spanCexTable : HtmlTable :=
  { rows := [[cellOf "A", { text := "B", rowspan := some "2" }], []] }

/-- C1 witness table: a well-formed row span. -/
def spanWitTable : HtmlTable :=
  { rows := [[{ text := "D", rowspan := some "2" }, cellOf "E"], [cellOf "F"]] }

/-- C3/C4 fixture: a single table consisting only of a header row naming
groups 511 and 512 (no entry rows at all). -/
def hdrOnlyDoc : HtmlDoc :=
  { nodes := [.table { rows := [[cellOf "Ziua", cellOf "Ora", cellOf "511", cellOf "512"]] }] }

/-- C5 fixture: a table whose header row is not recognised by the
explicit-header scan, but which the columnar fallback parses fine. -/
def rejTable : HtmlTable :=
  { rows := [[cellOf "x", cellOf "511"], [cellOf "luni 8-10", cellOf "Programare"]] }

/-- C5 fixture: a page whose only table is `rejTable`. -/
def rejHdrDoc : HtmlDoc := { nodes := [.table rejTable] }

/-- C2 witness fixture: an empty page. -/
def emptyDoc : HtmlDoc := { nodes := [] }

/-- C3 witness fixture: a heading "Grupa 211" followed by one
explicit-header table with one entry row (sectioned layout). -/
def sectionWitDoc : HtmlDoc :=
  { nodes := [.elem "Grupa 211",
      .table { rows := [[cellOf "Ziua", cellOf "Ora", cellOf "Disciplina"],
        [cellOf "Luni", cellOf "8-10", cellOf "Algebra"]] }] }

/-- C5 witness fixture: a table with an unrecognised header and no group
tokens anywhere. -/
def rejNoGroupTable : HtmlTable :=
  { rows := [[cellOf "x", cellOf "y"], [cellOf "luni 8-10", cellOf "Programare"]] }

/-- C5 witness fixture: a page whose only table is `rejNoGroupTable`, so both
layouts fail. -/
def rejNoGroupDoc : HtmlDoc := { nodes := [.table rejNoGroupTable] }

/-- The number of pending spans at column `col` or beyond: the quantity the
`fill_span` loop strictly decreases, bounding the fuel it needs. -/
def numGE (l : List (Nat × Nat × String)) (col : Nat) : Nat :=
  (l.filter fun e => decide (col ≤ e.1)).length


/-- Specification bundle for a `fill_span` run started at `(spans, row, col)`
with `row` of length `col` and result `out`: the column only advances, the row
tracks the column, the stop column has no pending span, spans outside the
swept interval are untouched, row cells below `col` are untouched, and each
swept column got its pending text with the span decremented or deleted. -/
def FillOut (spans : List (Nat × Nat × String)) (row : List String) (col : Nat)
    (out : List (Nat × Nat × String) × List String × Nat) : Prop :=
  col ≤ out.2.2 ∧
  out.2.1.length = out.2.2 ∧
  spansLookup out.1 out.2.2 = none ∧
  (∀ q, q < col ∨ out.2.2 ≤ q → spansLookup out.1 q = spansLookup spans q) ∧
  (∀ q, q < col → out.2.1.getD q "" = row.getD q "") ∧
  (∀ q, col ≤ q → q < out.2.2 →
    ∃ rq tq, spansLookup spans q = some (rq, tq) ∧
      out.2.1.getD q "" = tq ∧
      (2 ≤ rq → spansLookup out.1 q = some (rq - 1, tq)) ∧
      (rq ≤ 1 → spansLookup out.1 q = none))


/-- Specification bundle for `placeCell text rs cs spans row col` with `row`
of length `col` and result `out`: the column advances by the column span, the
row tracks the column, cells and spans below `col` are untouched, every
footprint column carries `text` (with a pending vertical span `rs - 1`
registered when `rs ≥ 2`), and spans outside the footprint are untouched. -/
def PlaceOut (text : String) (rs : Nat) (cs : Nat)
    (spans : List (Nat × Nat × String)) (row : List String) (col : Nat)
    (out : List (Nat × Nat × String) × List String × Nat) : Prop :=
  out.2.2 = col + cs ∧
  out.2.1.length = out.2.2 ∧
  (∀ q, q < col → out.2.1.getD q "" = row.getD q "") ∧
  (∀ q, col ≤ q → q < col + cs →
    out.2.1.getD q "" = text ∧
    (2 ≤ rs → spansLookup out.1 q = some (rs - 1, text))) ∧
  (∀ q, q < col ∨ col + cs ≤ q → spansLookup out.1 q = spansLookup spans q)


/-- Invariant of the per-row traversal state relative to the row's initial
spans `spans0`: the row tracks the column, spans at or beyond the cursor are
as at row start, every consumed column got its pending text (with its span
decremented or deleted), and every recorded placement's columns carry its
text (with its vertical span registered when the row span exceeds one). -/
def RowInv (spans0 : List (Nat × Nat × String)) (idx : Nat) (st : RowState) :
    Prop :=
  st.row.length = st.col ∧
  (∀ q, st.col ≤ q → spansLookup st.spans q = spansLookup spans0 q) ∧
  (∀ q ∈ st.consumed, q < st.col ∧
    ∃ rq tq, spansLookup spans0 q = some (rq, tq) ∧
      st.row.getD q "" = tq ∧
      (2 ≤ rq → spansLookup st.spans q = some (rq - 1, tq)) ∧
      (rq ≤ 1 → spansLookup st.spans q = none)) ∧
  (∀ p ∈ st.placements, p.row = idx ∧ p.col + p.cols ≤ st.col ∧
    ∀ j, p.col ≤ j → j < p.col + p.cols →
      st.row.getD j "" = p.text ∧
      (2 ≤ p.rows → spansLookup st.spans j = some (p.rows - 1, p.text)))


/-- Postcondition of `processRow`: when its well-formedness bit is set, every
pending span due at row start landed in the emitted row (with its span
decremented or deleted), and every placement of the row occupies its column
range in the emitted row (registering its vertical span for later rows when
the row span exceeds one). -/
def ProcOut (spans0 : List (Nat × Nat × String)) (idx : Nat)
    (out : List String × List (Nat × Nat × String) × List Placement × Bool) :
    Prop :=
  (out.2.2.2 = true →
    ∀ c rt, spansLookup spans0 c = some rt →
      c < out.1.length ∧ out.1.getD c "" = rt.2 ∧
      (2 ≤ rt.1 → spansLookup out.2.1 c = some (rt.1 - 1, rt.2)) ∧
      (rt.1 ≤ 1 → spansLookup out.2.1 c = none)) ∧
  (∀ p ∈ out.2.2.1, p.row = idx ∧ p.col + p.cols ≤ out.1.length ∧
    ∀ j, p.col ≤ j → j < p.col + p.cols →
      out.1.getD j "" = p.text ∧
      (2 ≤ p.rows → spansLookup out.2.1 j = some (p.rows - 1, p.text)))

/-! Helper lemmas (shared by several verification theorems). -/

theorem expandRowsAux_grid_length :
    ∀ (rows : List (List HtmlCell)) (idx : Nat) (spans : List (Nat × Nat × String)),
      (expandRowsAux rows idx spans).1.length = rows.length := by
  intro rows
  induction rows with
  | nil => intro idx spans; rfl
  | cons r rest ih =>
      intro idx spans
      simp only [expandRowsAux, List.length_cons]
      rw [ih]

theorem expand_table_length (t : HtmlTable) :
    (expand_table t).length = t.rows.length := by
  unfold expand_table
  rw [List.length_map]
  exact expandRowsAux_grid_length t.rows 0 []

/-! Claim C7: multi-match header cells under an expected-group set. -/

/-- C7 counterexample: a header cell containing two numeric matches that
both belong to the expected set is not discarded - the code resolves it by
picking the first match (511), contradicting the claim that such cells are
dropped from the column mapping. -/
theorem spec_c7_cex :
    extract_group_from_header "511 512" [511, 512] = some 511 ∧
      extract_group_from_header "511 512" [511, 512] ≠ none := by
  refine ⟨by decide, ?_⟩
  intro h
  rw [show extract_group_from_header "511 512" [511, 512] = some 511 from by decide] at h
  cases h

/-- C7 (amended): with a nonempty expected set, `_extract_group_from_header`
returns the first numeric match that belongs to the set (so a cell with
several expected matches is resolved by picking the first, not discarded);
only without an expected set is a cell with more than one numeric match
discarded. -/
theorem spec_c7_amended :
    (∀ (text : String) (egs : List Int), egs ≠ [] →
      extract_group_from_header text egs =
        (groupFindall text.data).find? (egs.contains ·)) ∧
    (∀ text : String,
      extract_group_from_header text [] =
        match groupFindall text.data with
        | [m] => some m
        | _ => none) := by
  constructor
  · intro text egs hne
    unfold extract_group_from_header
    cases hms : groupFindall text.data with
    | nil => simp
    | cons m rest =>
        have : (m :: rest).isEmpty = false := rfl
        simp only [this, Bool.not_false, if_true, Bool.false_eq_true, if_false]
        have hee : egs.isEmpty = false := by
          cases egs with
          | nil => exact absurd rfl hne
          | cons a as => rfl
        simp [hee]
  · intro text
    unfold extract_group_from_header
    cases hms : groupFindall text.data with
    | nil => simp
    | cons m rest =>
        cases rest with
        | nil => simp
        | cons m2 r2 => simp

/-- C7 witness: the amended description evaluated at concrete inputs. -/
theorem spec_c7_witness :
    ([511, 512] : List Int) ≠ [] ∧
    extract_group_from_header "510 512" [511, 512] =
      (groupFindall "510 512".data).find? (([511, 512] : List Int).contains ·) ∧
    extract_group_from_header "510 512" [] =
      (match groupFindall "510 512".data with
       | [m] => some m
       | _ => none) := by
  refine ⟨by decide, spec_c7_amended.1 "510 512" [511, 512] (by decide),
    spec_c7_amended.2 "510 512"⟩

/-! Claim C9: totality of span-attribute handling. -/

/-- C9: grid construction is total over span attributes - a missing,
non-numeric or sub-1 `rowspan`/`colspan` value is treated as a span of 1,
every effective span is at least 1, and `expand_table` is defined (one grid
row per `tr`) on every table, malformed attributes included. -/
theorem spec_c9 :
    (∀ a : Option String, 1 ≤ parseSpan a) ∧
    parseSpan none = 1 ∧
    (∀ s : String, pyToInt s = none → parseSpan (some s) = 1) ∧
    (∀ (s : String) (n : Int), pyToInt s = some n → n < 1 → parseSpan (some s) = 1) ∧
    (∀ t : HtmlTable, (expand_table t).length = t.rows.length) := by
  have hsome : ∀ s : String, parseSpan (some s) =
      (match pyToInt s with
       | none => 1
       | some n => (max 1 n).toNat) := fun s => rfl
  refine ⟨?_, rfl, ?_, ?_, expand_table_length⟩
  · intro a
    match a with
    | none => exact le_refl 1
    | some s =>
        rw [hsome s]
        cases h : pyToInt s with
        | none => exact le_refl 1
        | some n =>
            show 1 ≤ (max 1 n).toNat
            rcases le_total 1 n with hn | hn
            · rw [max_eq_right hn]
              omega
            · rw [max_eq_left hn]
              rfl
  · intro s h
    rw [hsome s, h]
  · intro s n h hn
    rw [hsome s, h]
    show (max 1 n).toNat = 1
    rw [max_eq_left (by omega : n ≤ 1)]
    rfl

/-- C9 witness: the malformed-attribute clauses instantiated at concrete
values ("abc" is non-numeric, "-3" parses below 1). -/
theorem spec_c9_witness :
    pyToInt "abc" = none ∧ parseSpan (some "abc") = 1 ∧
    pyToInt "-3" = some (-3) ∧ parseSpan (some "-3") = 1 ∧
    (expand_table spanWitTable).length = spanWitTable.rows.length := by
  exact ⟨by decide, spec_c9.2.2.1 "abc" (by decide), by decide,
    spec_c9.2.2.2.1 "-3" (-3) (by decide) (by decide),
    spec_c9.2.2.2.2 spanWitTable⟩

/-! Claim C8: determinism and deduplication of `_parse_cell_entries`. -/

theorem dedupEntriesAux_spec (es : List Entry) :
    ∀ seen,
      (∀ e ∈ dedupEntriesAux seen es, ¬ entryKey e ∈ seen) ∧
      List.Pairwise (fun a b => entryKey a ≠ entryKey b) (dedupEntriesAux seen es) := by
  induction es with
  | nil =>
      intro seen
      exact ⟨fun e he => absurd he (List.not_mem_nil e), List.Pairwise.nil⟩
  | cons e rest ih =>
      intro seen
      cases h : seen.contains (entryKey e) with
      | true =>
          have hred : dedupEntriesAux seen (e :: rest) = dedupEntriesAux seen rest := by
            simp only [dedupEntriesAux, h, if_true]
          rw [hred]
          exact ih seen
      | false =>
          have hred : dedupEntriesAux seen (e :: rest) =
              e :: dedupEntriesAux (entryKey e :: seen) rest := by
            simp only [dedupEntriesAux, h, Bool.false_eq_true, if_false]
          rw [hred]
          have hmem : ¬ entryKey e ∈ seen := by
            intro hm
            have := List.elem_eq_true_of_mem hm
            rw [show seen.elem (entryKey e) = seen.contains (entryKey e) from rfl, h] at this
            cases this
          refine ⟨?_, ?_⟩
          · intro b hb
            rcases List.mem_cons.mp hb with rfl | hb'
            · exact hmem
            · have := (ih (entryKey e :: seen)).1 b hb'
              intro hbs
              exact this (List.mem_cons_of_mem _ hbs)
          · refine List.Pairwise.cons ?_ (ih (entryKey e :: seen)).2
            intro b hb
            have := (ih (entryKey e :: seen)).1 b hb
            intro heq
            exact this (heq ▸ List.mem_cons_self _ _)

/-- C8: classifying the same cell text twice yields identical output (the
classifier is a pure function), and the returned list is deduplicated: no
two entries share the same (time, frequency, course, type, room,
instructor) tuple. -/
theorem spec_c8 (text time_slot : String) :
    parse_cell_entries text time_slot = parse_cell_entries text time_slot ∧
    List.Pairwise (fun a b => entryKey a ≠ entryKey b)
      (parse_cell_entries text time_slot) := by
  refine ⟨rfl, ?_⟩
  show List.Pairwise _ (parse_cell_entries text time_slot)
  unfold parse_cell_entries
  simp only []
  split
  · exact List.Pairwise.nil
  · split
    · exact List.Pairwise.nil
    · split
      · exact List.Pairwise.nil
      · split
        · exact List.Pairwise.nil
        · exact (dedupEntriesAux_spec _ _).2

/-! Claim C6: course selection in line-based classification. -/

theorem firstM_opt_some {α β : Type} (f : α → Option β) (P : β → Prop)
    (hf : ∀ x b', f x = some b' → P b') :
    ∀ (l : List α) (b : β), l.firstM f = some b → P b := by
  intro l
  induction l with
  | nil => intro b h; cases h
  | cons x xs ih =>
      intro b h
      have hstep : (x :: xs).firstM f = (f x <|> xs.firstM f) := rfl
      rw [hstep] at h
      cases hfx : f x with
      | some c =>
          rw [hfx] at h
          cases h
          exact hf x b hfx
      | none =>
          rw [hfx] at h
          simp only [Option.none_orElse] at h
          exact ih b h

/-! Generic lemmas about `List.firstM` over `Option`. -/

theorem firstM_opt_none {α β : Type} (f : α → Option β) :
    ∀ l : List α, (∀ x ∈ l, f x = none) → l.firstM f = none := by
  intro l
  induction l with
  | nil => intro _; rfl
  | cons x xs ih =>
      intro h
      show (f x <|> xs.firstM f) = none
      rw [h x (List.mem_cons_self x xs), ih fun y hy => h y (List.mem_cons_of_mem _ hy)]
      rfl

theorem firstM_of_find? {α β : Type} (f : α → Option β) (p : α → Bool) (g : α → β)
    (hpos : ∀ x, p x = true → f x = some (g x))
    (hneg : ∀ x, p x = false → f x = none) :
    ∀ (l : List α) (x₀ : α), l.find? p = some x₀ → l.firstM f = some (g x₀) := by
  intro l
  induction l with
  | nil => intro x₀ h; cases h
  | cons x xs ih =>
      intro x₀ h
      have hstep : (x :: xs).firstM f = (f x <|> xs.firstM f) := rfl
      cases hp : p x with
      | true =>
          rw [List.find?_cons_of_pos _ hp] at h
          cases h
          rw [hstep, hpos x hp]
          rfl
      | false =>
          rw [List.find?_cons_of_neg _ (by simp [hp])] at h
          rw [hstep, hneg x hp]
          simp only [Option.none_orElse]
          exact ih x₀ h

theorem detect_course_ne_empty : ∀ lines : List String, detect_course lines ≠ "" := by
  have hF1 : ∀ (x b : String),
      (if is_frequency_line x || is_room_line x || is_instructor_line x ||
          is_formation_line x then none
       else
         let cleaned := strip_inline_metadata x
         if cleaned.isEmpty then none else some cleaned) = some b → b ≠ "" := by
    intro x b
    generalize (is_frequency_line x || is_room_line x || is_instructor_line x ||
      is_formation_line x) = cnd
    generalize strip_inline_metadata x = cl
    intro h
    cases cnd with
    | true => cases h
    | false =>
        rw [if_neg Bool.false_ne_true] at h
        simp only [] at h
        cases hcl : cl.isEmpty with
        | true => rw [if_pos hcl] at h; cases h
        | false =>
            rw [if_neg (by rw [hcl]; exact Bool.false_ne_true)] at h
            cases h
            intro hb
            rw [hb] at hcl
            cases hcl
  have hF2 : ∀ (x b : String),
      ((let cleaned := strip_inline_metadata x
        if !cleaned.isEmpty && !is_formation_line cleaned then some cleaned
        else none) : Option String) = some b → b ≠ "" := by
    intro x b
    show (if !(strip_inline_metadata x).isEmpty &&
        !is_formation_line (strip_inline_metadata x) then some (strip_inline_metadata x)
      else none) = some b → b ≠ ""
    generalize strip_inline_metadata x = cl
    intro h
    cases hcl : cl.isEmpty with
    | true =>
        rw [if_neg (by rw [hcl]; simp)] at h
        cases h
    | false =>
        cases hfl : is_formation_line cl with
        | true =>
            rw [if_neg (by rw [hcl, hfl]; simp)] at h
            cases h
        | false =>
            rw [if_pos (by rw [hcl, hfl]; rfl)] at h
            cases h
            intro hb
            rw [hb] at hcl
            cases hcl
  intro lines
  unfold detect_course
  cases h1 : lines.firstM (fun line =>
      if is_frequency_line line || is_room_line line || is_instructor_line line ||
          is_formation_line line then none
      else
        let cleaned := strip_inline_metadata line
        if cleaned.isEmpty then none else some cleaned) with
  | some c =>
      simp only [h1]
      exact firstM_opt_some _ (fun b => b ≠ "") hF1 lines c h1
  | none =>
      simp only [h1]
      cases h2 : lines.firstM (fun line =>
          let cleaned := strip_inline_metadata line
          if !cleaned.isEmpty && !is_formation_line cleaned then some cleaned
          else none) with
      | some c =>
          simp only [h2]
          exact firstM_opt_some _ (fun b => b ≠ "") hF2 lines c h2
      | none =>
          simp only [h2]
          decide

theorem detect_course_first_qualifying :
    ∀ (lines : List String) (l₀ : String),
      lines.find? (fun l => !courseSkip l && !(strip_inline_metadata l).isEmpty) =
        some l₀ →
      detect_course lines = strip_inline_metadata l₀ := by
  intro lines l₀ hfind
  have hrw := firstM_of_find?
    (f := fun line =>
      if is_frequency_line line || is_room_line line || is_instructor_line line ||
          is_formation_line line then none
      else
        let cleaned := strip_inline_metadata line
        if cleaned.isEmpty then none else some cleaned)
    (p := fun l => !courseSkip l && !(strip_inline_metadata l).isEmpty)
    (g := strip_inline_metadata)
    (fun x hx => by
      show (if is_frequency_line x || is_room_line x || is_instructor_line x ||
          is_formation_line x then none
        else
          let cleaned := strip_inline_metadata x
          if cleaned.isEmpty then none else some cleaned) = some (strip_inline_metadata x)
      have hx' : (!courseSkip x && !(strip_inline_metadata x).isEmpty) = true := hx
      simp only [Bool.and_eq_true, Bool.not_eq_true'] at hx'
      have hskip : (is_frequency_line x || is_room_line x || is_instructor_line x ||
          is_formation_line x) = false := hx'.1
      rw [hskip, if_neg Bool.false_ne_true]
      show (if (strip_inline_metadata x).isEmpty then none
        else some (strip_inline_metadata x)) = some (strip_inline_metadata x)
      rw [hx'.2, if_neg Bool.false_ne_true])
    (fun x hx => by
      show (if is_frequency_line x || is_room_line x || is_instructor_line x ||
          is_formation_line x then none
        else
          let cleaned := strip_inline_metadata x
          if cleaned.isEmpty then none else some cleaned) = none
      have hx' : (!courseSkip x && !(strip_inline_metadata x).isEmpty) = false := hx
      cases hskip : courseSkip x with
      | true =>
          have hcond : (is_frequency_line x || is_room_line x || is_instructor_line x ||
              is_formation_line x) = true := hskip
          rw [hcond, if_pos rfl]
      | false =>
          have hemp : (strip_inline_metadata x).isEmpty = true := by
            rw [hskip] at hx'
            cases hv : (strip_inline_metadata x).isEmpty with
            | true => rfl
            | false => rw [hv] at hx'; cases hx'
          have hcond : (is_frequency_line x || is_room_line x || is_instructor_line x ||
              is_formation_line x) = false := hskip
          rw [hcond, if_neg Bool.false_ne_true]
          show (if (strip_inline_metadata x).isEmpty then none
            else some (strip_inline_metadata x)) = (none : Option String)
          rw [hemp, if_pos rfl])
    lines l₀ hfind
  unfold detect_course
  rw [hrw]

theorem detect_course_fallback_unknown :
    ∀ lines : List String,
      (∀ l ∈ lines, courseSkip l = true ∨ strip_inline_metadata l = "") →
      (∀ l ∈ lines,
        strip_inline_metadata l = "" ∨
          is_formation_line (strip_inline_metadata l) = true) →
      detect_course lines = "Unknown" := by
  intro lines h1 h2
  unfold detect_course
  have hn1 : lines.firstM (fun line =>
      if is_frequency_line line || is_room_line line || is_instructor_line line ||
          is_formation_line line then none
      else
        let cleaned := strip_inline_metadata line
        if cleaned.isEmpty then none else some cleaned) = none := by
    apply firstM_opt_none
    intro x hx
    show (if is_frequency_line x || is_room_line x || is_instructor_line x ||
        is_formation_line x then none
      else
        let cleaned := strip_inline_metadata x
        if cleaned.isEmpty then none else some cleaned) = none
    cases hskip : courseSkip x with
    | true =>
        have hcond : (is_frequency_line x || is_room_line x || is_instructor_line x ||
            is_formation_line x) = true := hskip
        rw [hcond, if_pos rfl]
    | false =>
        rcases h1 x hx with hs | he
        · rw [hskip] at hs
          cases hs
        · have hcond : (is_frequency_line x || is_room_line x || is_instructor_line x ||
              is_formation_line x) = false := hskip
          rw [hcond, if_neg Bool.false_ne_true]
          show (if (strip_inline_metadata x).isEmpty then none
            else some (strip_inline_metadata x)) = (none : Option String)
          rw [he]
          rfl
  have hn2 : lines.firstM (fun line =>
      let cleaned := strip_inline_metadata line
      if !cleaned.isEmpty && !is_formation_line cleaned then some cleaned
      else none) = none := by
    apply firstM_opt_none
    intro x hx
    show (if !(strip_inline_metadata x).isEmpty &&
        !is_formation_line (strip_inline_metadata x) then some (strip_inline_metadata x)
      else none) = none
    rcases h2 x hx with he | hf
    · rw [he]
      rfl
    · rw [hf]
      rw [if_neg]
      intro hc
      rw [Bool.and_eq_true] at hc
      have := hc.2
      rw [Bool.not_eq_true'] at this
      cases this
  rw [hn1, hn2]

/-- C6 counterexample: the single line `IM1` is formation-marker-shaped and
survives metadata stripping unchanged, so under the claim the course should
be that line; the code instead refuses formation-shaped lines in its
fallback and returns the placeholder `Unknown`. -/
theorem spec_c6_cex :
    is_formation_line "IM1" = true ∧ strip_inline_metadata "IM1" = "IM1" ∧
    detect_course ["IM1"] = "Unknown" ∧ is_formation_line "Unknown" = false := by
  exact ⟨by decide, by decide, by decide, by decide⟩

/-- C6 (amended): the course is the stripped text of the first line that is
none of frequency/room/instructor/formation material and is non-empty after
stripping; if no line qualifies, the fallback accepts any line whose
stripped text is non-empty and NOT formation-marker-shaped, and when even
that fails the course degrades to the placeholder `Unknown` - so the course
is never empty and an entry is never dropped for missing course text
alone. -/
theorem spec_c6_amended :
    (∀ lines : List String, detect_course lines ≠ "") ∧
    (∀ (lines : List String) (l₀ : String),
      lines.find? (fun l => !courseSkip l && !(strip_inline_metadata l).isEmpty) =
        some l₀ →
      detect_course lines = strip_inline_metadata l₀) ∧
    (∀ lines : List String,
      (∀ l ∈ lines, courseSkip l = true ∨ strip_inline_metadata l = "") →
      (∀ l ∈ lines,
        strip_inline_metadata l = "" ∨
          is_formation_line (strip_inline_metadata l) = true) →
      detect_course lines = "Unknown") :=
  ⟨detect_course_ne_empty, detect_course_first_qualifying, detect_course_fallback_unknown⟩

/-- C6 witness: the amended clauses instantiated on concrete cells. -/
theorem spec_c6_witness :
    detect_course ["sapt. 1", "Programare"] ≠ "" ∧
    (["sapt. 1", "Programare"].find? (fun l =>
        !courseSkip l && !(strip_inline_metadata l).isEmpty) = some "Programare" ∧
      detect_course ["sapt. 1", "Programare"] = strip_inline_metadata "Programare") ∧
    ((∀ l ∈ ["(IM1)"], courseSkip l = true ∨ strip_inline_metadata l = "") ∧
      detect_course ["(IM1)"] = "Unknown") := by
  refine ⟨spec_c6_amended.1 _,
    ⟨by decide, spec_c6_amended.2.1 _ "Programare" (by decide)⟩,
    ⟨by decide, spec_c6_amended.2.2 _ (by decide) (by decide)⟩⟩

/-! Claim C2: the failure boundary of `parse_timetable_html`. -/

/-- C2: a structural parse error is raised only for page-level conditions.
Whenever parsing returns an error, the sectioned layout produced nothing and
the page satisfies a page-level failure condition: no table at all, or the
selected main table has an empty grid or unresolvable group columns.  (The
three error constructors in the embedding are the only `raise` sites in the
source; single unclassifiable rows or cells never produce one - they are
skipped inside total functions.) -/
theorem spec_c2 (doc : HtmlDoc) (egs : List Int) (e : TimetableParseError)
    (h : parse_timetable_html doc egs = .error e) :
    parse_group_section_layout doc egs = none ∧ pageLevelFailure doc egs := by
  unfold parse_timetable_html at h
  cases hs : parse_group_section_layout doc egs with
  | some r =>
      rw [hs] at h
      cases h
  | none =>
      rw [hs] at h
      refine ⟨rfl, ?_⟩
      unfold parse_columnar_layout at h
      cases hm : select_main_table doc with
      | none =>
          left
          unfold select_main_table at hm
          cases hd : docTables doc with
          | nil => rfl
          | cons t ts =>
              rw [hd] at hm
              cases hm
      | some t =>
          right
          refine ⟨t, hm, ?_⟩
          rw [hm] at h
          simp only [] at h
          cases hG : (expand_table t).isEmpty with
          | true =>
              left
              exact List.isEmpty_iff.mp hG
          | false =>
              rw [hG] at h
              simp only [Bool.false_eq_true, if_false] at h
              cases hC : (detect_group_columns (expand_table t) egs).isEmpty with
              | true =>
                  right
                  exact List.isEmpty_iff.mp hC
              | false =>
                  rw [hC] at h
                  simp only [Bool.false_eq_true, if_false] at h
                  cases h

/-- C2 witness: the empty page raises, and the theorem applies to it. -/
theorem spec_c2_witness :
    parse_timetable_html emptyDoc [] =
        .error ⟨"No table was found on the source page."⟩ ∧
      (parse_group_section_layout emptyDoc [] = none ∧ pageLevelFailure emptyDoc []) :=
  ⟨rfl, spec_c2 emptyDoc [] ⟨"No table was found on the source page."⟩ rfl⟩

/-! Ordering facts about `sorted(set(...))` (`dedupSort`). -/

theorem insSorted_mem :
    ∀ (l : List Int) (x a : Int), a ∈ insSorted x l → a = x ∨ a ∈ l := by
  intro l
  induction l with
  | nil =>
      intro x a h
      simp [insSorted] at h
      exact Or.inl h
  | cons y rest ih =>
      intro x a h
      unfold insSorted at h
      by_cases hlt : x < y
      · rw [if_pos hlt] at h
        rcases List.mem_cons.mp h with rfl | h2
        · exact Or.inl rfl
        · exact Or.inr h2
      · rw [if_neg hlt] at h
        by_cases heq : x = y
        · rw [if_pos heq] at h
          exact Or.inr h
        · rw [if_neg heq] at h
          rcases List.mem_cons.mp h with rfl | h2
          · exact Or.inr (List.mem_cons_self _ _)
          · rcases ih x a h2 with h3 | h3
            · exact Or.inl h3
            · exact Or.inr (List.mem_cons_of_mem _ h3)

theorem insSorted_pairwise :
    ∀ (l : List Int) (x : Int), List.Pairwise (· < ·) l →
      List.Pairwise (· < ·) (insSorted x l) := by
  intro l
  induction l with
  | nil =>
      intro x _
      exact List.pairwise_singleton _ x
  | cons y rest ih =>
      intro x hp
      have hy : ∀ b ∈ rest, y < b := fun b hb => List.rel_of_pairwise_cons hp hb
      have hrest : List.Pairwise (· < ·) rest := hp.of_cons
      unfold insSorted
      by_cases hlt : x < y
      · rw [if_pos hlt]
        exact List.Pairwise.cons
          (fun b hb => by
            rcases List.mem_cons.mp hb with rfl | hb2
            · exact hlt
            · exact lt_trans hlt (hy b hb2)) hp
      · rw [if_neg hlt]
        by_cases heq : x = y
        · rw [if_pos heq]
          exact hp
        · rw [if_neg heq]
          have hyx : y < x := by
            rcases lt_trichotomy x y with h | h | h
            · exact absurd h hlt
            · exact absurd h heq
            · exact h
          exact List.Pairwise.cons
            (fun b hb => by
              rcases insSorted_mem rest x b hb with rfl | hb2
              · exact hyx
              · exact hy b hb2) (ih x hrest)

theorem dedupSort_foldl_pairwise :
    ∀ (xs acc : List Int), List.Pairwise (· < ·) acc →
      List.Pairwise (· < ·) (xs.foldl (fun a x => insSorted x a) acc) := by
  intro xs
  induction xs with
  | nil => intro acc h; exact h
  | cons x rest ih =>
      intro acc h
      exact ih (insSorted x acc) (insSorted_pairwise acc x h)

theorem dedupSort_pairwise (xs : List Int) : List.Pairwise (· < ·) (dedupSort xs) :=
  dedupSort_foldl_pairwise xs [] List.Pairwise.nil

theorem insSorted_append_of_lt :
    ∀ (acc : List Int) (x : Int), (∀ a ∈ acc, a < x) → insSorted x acc = acc ++ [x] := by
  intro acc
  induction acc with
  | nil => intro x _; rfl
  | cons y rest ih =>
      intro x h
      have hy : y < x := h y (List.mem_cons_self _ _)
      unfold insSorted
      rw [if_neg (by omega), if_neg (by omega)]
      rw [ih x fun a ha => h a (List.mem_cons_of_mem _ ha)]
      rfl

theorem dedupSort_foldl_sorted_id :
    ∀ (l acc : List Int), List.Pairwise (· < ·) (acc ++ l) →
      l.foldl (fun a x => insSorted x a) acc = acc ++ l := by
  intro l
  induction l with
  | nil => intro acc _; simp
  | cons x rest ih =>
      intro acc h
      have hlt : ∀ a ∈ acc, a < x := by
        intro a ha
        exact (List.pairwise_append.mp h).2.2 a ha x (List.mem_cons_self _ _)
      show rest.foldl (fun a x => insSorted x a) (insSorted x acc) = acc ++ x :: rest
      rw [insSorted_append_of_lt acc x hlt]
      have h2 : List.Pairwise (· < ·) ((acc ++ [x]) ++ rest) := by
        simpa using h
      rw [ih (acc ++ [x]) h2]
      simp

theorem dedupSort_sorted_id (l : List Int) (h : List.Pairwise (· < ·) l) :
    dedupSort l = l := by
  unfold dedupSort
  exact dedupSort_foldl_sorted_id l [] (by simpa using h)

theorem dedupSort_idem (l : List Int) : dedupSort (dedupSort l) = dedupSort l :=
  dedupSort_sorted_id _ (dedupSort_pairwise l)

/-! Shape lemmas for the two layout strategies. -/

theorem section_layout_shape (doc : HtmlDoc) (egs : List Int) (r : ParsedTimetable)
    (h : parse_group_section_layout doc egs = some r) :
    ∃ st : SectionState,
      st = doc.nodes.foldl (sectionStep egs)
        { current_group := none, grouped := [], detected := [] } ∧
      r.by_group = grouped_to_days st.grouped
        (dedupSort (if !egs.isEmpty then egs else st.detected)) ∧
      r.detected_groups = dedupSort st.detected := by
  unfold parse_group_section_layout at h
  simp only [] at h
  split at h
  · cases h
  · cases h
    exact ⟨_, rfl, rfl, rfl⟩

theorem columnar_layout_shape (doc : HtmlDoc) (egs : List Int) (r : ParsedTimetable)
    (h : parse_columnar_layout doc egs = .ok r) :
    ∃ t : HtmlTable, select_main_table doc = some t ∧
      ∃ D : List Int,
        D = dedupSort ((detect_group_columns (expand_table t) egs).map (·.2)) ∧
        r.detected_groups = D ∧
        r.by_group = grouped_to_days
          ((expand_table t).foldl
            (columnarStep (detect_group_columns (expand_table t) egs))
            { current_day := none,
              grouped := (dedupSort (if !egs.isEmpty then egs else D)).map fun g =>
                (g, ([] : List (String × List Entry))) }).grouped
          (dedupSort (if !egs.isEmpty then egs else D)) := by
  unfold parse_columnar_layout at h
  cases hm : select_main_table doc with
  | none =>
      rw [hm] at h
      cases h
  | some t =>
      rw [hm] at h
      simp only [] at h
      split at h
      · cases h
      · split at h
        · cases h
        · cases h
          exact ⟨t, rfl, _, rfl, rfl, rfl⟩

theorem grouped_to_days_keys (g : List (Int × List (String × List Entry)))
    (target : List Int) : (grouped_to_days g target).map (·.1) = target := by
  unfold grouped_to_days
  rw [List.map_map]
  show target.map (fun a => a) = target
  exact List.map_id' target

/-! Claim C10: detected groups are strictly ascending and duplicate-free. -/

/-- C10: in both layout strategies, the `detected_groups` list of a
successfully parsed timetable is strictly ascending (hence without
duplicates): both strategies emit `sorted(set(...))`. -/
theorem spec_c10 (doc : HtmlDoc) (egs : List Int) (r : ParsedTimetable)
    (h : parse_timetable_html doc egs = .ok r) :
    List.Chain' (· < ·) r.detected_groups := by
  have hpw : List.Pairwise (· < ·) r.detected_groups := by
    unfold parse_timetable_html at h
    cases hs : parse_group_section_layout doc egs with
    | some s =>
        rw [hs] at h
        injection h with h2
        subst h2
        obtain ⟨st, _, _, hd⟩ := section_layout_shape doc egs s hs
        rw [hd]
        exact dedupSort_pairwise _
    | none =>
        rw [hs] at h
        obtain ⟨t, _, D, hD, hd, _⟩ := columnar_layout_shape doc egs r h
        rw [hd, hD]
        exact dedupSort_pairwise _
  exact List.chain'_iff_pairwise.mpr hpw

/-- C10 witness: the theorem applied to a concrete successful parse. -/
theorem spec_c10_witness :
    parse_timetable_html hdrOnlyDoc [] =
        .ok { by_group := [(511, []), (512, [])], detected_groups := [511, 512] } ∧
      List.Chain' (· < ·) ([511, 512] : List Int) := by
  constructor
  · rfl
  · have := spec_c10 hdrOnlyDoc []
      { by_group := [(511, []), (512, [])], detected_groups := [511, 512] } rfl
    exact this

/-! Claim C4: output group keys under an expected-group set. -/

/-- C4 counterexample: with the expected set containing 511 and 999 on a page
whose header only disambiguates 511, the key set of `by_group` is the whole
expected set - the key 999 appears although it is not among the groups the
detector resolved, so the keys are not the claimed intersection. -/
theorem spec_c4_cex :
    parse_timetable_html hdrOnlyDoc [511, 999] =
        .ok { by_group := [(511, []), (999, [])], detected_groups := [511] } ∧
    (([(511, []), (999, [])] : List (Int × List (String × List Entry))).map (·.1) =
      [511, 999]) ∧
    (999 : Int) ∉ ([511] : List Int) := by
  exact ⟨rfl, by decide, by decide⟩

/-- C4 (amended): when a nonempty expected-group set is supplied, the key
set of `by_group` is exactly the (sorted, deduplicated) expected set -
including expected groups the detector could not resolve, which map to empty
day lists; only when no expected set is supplied are the keys the detected
groups. -/
theorem spec_c4_amended (doc : HtmlDoc) (egs : List Int) (r : ParsedTimetable)
    (h : parse_timetable_html doc egs = .ok r) :
    (egs ≠ [] → r.by_group.map (·.1) = dedupSort egs) ∧
    (egs = [] → r.by_group.map (·.1) = r.detected_groups) := by
  unfold parse_timetable_html at h
  cases hs : parse_group_section_layout doc egs with
  | some s =>
      rw [hs] at h
      injection h with h2
      subst h2
      obtain ⟨st, _, hb, hd⟩ := section_layout_shape doc egs s hs
      constructor
      · intro hne
        have he : egs.isEmpty = false := by
          cases egs with
          | nil => exact absurd rfl hne
          | cons a as => rfl
        rw [hb, grouped_to_days_keys, he]
        rfl
      · intro hnil
        subst hnil
        rw [hb, grouped_to_days_keys, hd]
        rfl
  | none =>
      rw [hs] at h
      obtain ⟨t, _, D, hD, hd, hb⟩ := columnar_layout_shape doc egs r h
      constructor
      · intro hne
        have he : egs.isEmpty = false := by
          cases egs with
          | nil => exact absurd rfl hne
          | cons a as => rfl
        rw [hb, grouped_to_days_keys, he]
        rfl
      · intro hnil
        subst hnil
        rw [hb, grouped_to_days_keys, hd, hD]
        show dedupSort (dedupSort _) = dedupSort _
        exact dedupSort_idem _

/-- C4 witness: both clauses of the amended claim at concrete parses. -/
theorem spec_c4_witness :
    parse_timetable_html hdrOnlyDoc [511, 999] =
        .ok { by_group := [(511, []), (999, [])], detected_groups := [511] } ∧
    ([511, 999] : List Int) ≠ [] ∧
    (([(511, []), (999, [])] : List (Int × List (String × List Entry))).map (·.1) =
      dedupSort [511, 999]) ∧
    parse_timetable_html hdrOnlyDoc [] =
        .ok { by_group := [(511, []), (512, [])], detected_groups := [511, 512] } ∧
    (([(511, []), (512, [])] : List (Int × List (String × List Entry))).map (·.1) =
      [511, 512]) := by
  refine ⟨rfl, by decide, ?_, rfl, ?_⟩
  · exact (spec_c4_amended hdrOnlyDoc [511, 999]
      { by_group := [(511, []), (999, [])], detected_groups := [511] } rfl).1 (by decide)
  · exact (spec_c4_amended hdrOnlyDoc []
      { by_group := [(511, []), (512, [])], detected_groups := [511, 512] } rfl).2 rfl

/-! Claim C3: what `detected_groups` reflects. -/

theorem insSorted_mem_iff :
    ∀ (l : List Int) (x a : Int), a ∈ insSorted x l ↔ a = x ∨ a ∈ l := by
  intro l x a
  constructor
  · exact insSorted_mem l x a
  · intro h
    induction l with
    | nil =>
        rcases h with rfl | h2
        · exact List.mem_singleton_self a
        · cases h2
    | cons y rest ih =>
        unfold insSorted
        by_cases hlt : x < y
        · rw [if_pos hlt]
          rcases h with rfl | h2
          · exact List.mem_cons_self _ _
          · exact List.mem_cons_of_mem _ h2
        · rw [if_neg hlt]
          by_cases heq : x = y
          · rw [if_pos heq]
            rcases h with rfl | h2
            · rw [heq]; exact List.mem_cons_self _ _
            · exact h2
          · rw [if_neg heq]
            rcases h with rfl | h2
            · exact List.mem_cons_of_mem _ (ih (Or.inl rfl))
            · rcases List.mem_cons.mp h2 with rfl | h3
              · exact List.mem_cons_self _ _
              · exact List.mem_cons_of_mem _ (ih (Or.inr h3))

theorem dedupSort_foldl_mem_iff :
    ∀ (xs acc : List Int) (a : Int),
      a ∈ xs.foldl (fun ac x => insSorted x ac) acc ↔ a ∈ acc ∨ a ∈ xs := by
  intro xs
  induction xs with
  | nil =>
      intro acc a
      simp
  | cons x rest ih =>
      intro acc a
      show a ∈ rest.foldl (fun ac x => insSorted x ac) (insSorted x acc) ↔ _
      rw [ih (insSorted x acc) a, insSorted_mem_iff]
      constructor
      · rintro ((rfl | h) | h)
        · exact Or.inr (List.mem_cons_self _ _)
        · exact Or.inl h
        · exact Or.inr (List.mem_cons_of_mem _ h)
      · rintro (h | h)
        · exact Or.inl (Or.inr h)
        · rcases List.mem_cons.mp h with rfl | h2
          · exact Or.inl (Or.inl rfl)
          · exact Or.inr h2

theorem dedupSort_mem_iff (xs : List Int) (a : Int) :
    a ∈ dedupSort xs ↔ a ∈ xs := by
  unfold dedupSort
  rw [dedupSort_foldl_mem_iff]
  simp

theorem lookup_map_self (target : List Int)
    (F : Int → List (String × List Entry)) (g : Int) (h : g ∈ target) :
    (target.map fun x => (x, F x)).lookup g = some (F g) := by
  induction target with
  | nil => cases h
  | cons y rest ih =>
      rcases List.mem_cons.mp h with rfl | h2
      · simp [List.lookup]
      · by_cases hy : g = y
        · subst hy
          simp [List.lookup]
        · have : (g == y) = false := by
            simp [hy]
          simp only [List.map_cons, List.lookup, this]
          exact ih h2

theorem lookup_append_none {κ ν : Type} [BEq κ] (m l2 : List (κ × ν)) (k : κ)
    (h : m.lookup k = none) : (m ++ l2).lookup k = l2.lookup k := by
  induction m with
  | nil => rfl
  | cons e rest ih =>
      cases he : (k == e.1) with
      | true =>
          exfalso
          have : (e :: rest).lookup k = some e.2 := by
            simp [List.lookup, he]
          rw [h] at this
          cases this
      | false =>
          have h' : rest.lookup k = none := by
            simpa [List.lookup, he] using h
          simpa [List.lookup, he] using ih h'

theorem lookup_append_some {κ ν : Type} [BEq κ] (m l2 : List (κ × ν)) (k : κ) (v : ν)
    (h : m.lookup k = some v) : (m ++ l2).lookup k = some v := by
  induction m with
  | nil => cases h
  | cons e rest ih =>
      cases he : (k == e.1) with
      | true =>
          have hv : v = e.2 := by
            have := h
            simp [List.lookup, he] at this
            exact this.symm
          subst hv
          simp [List.lookup, he]
      | false =>
          have h' : rest.lookup k = some v := by
            simpa [List.lookup, he] using h
          simpa [List.lookup, he] using ih h'

theorem lookup_map_update {κ ν : Type} [BEq κ] [LawfulBEq κ] [DecidableEq κ]
    (g : ν → ν) (d : κ) :
    ∀ (m : List (κ × ν)) (v : ν), m.lookup d = some v →
      (m.map fun p => if p.1 = d then (p.1, g p.2) else p).lookup d = some (g v) := by
  intro m
  induction m with
  | nil => intro v hv; cases hv
  | cons e rest ih =>
      intro v hv
      obtain ⟨k, w⟩ := e
      by_cases hk : k = d
      · subst hk
        have hw : w = v := by simpa [List.lookup] using hv
        subst hw
        show (List.map (fun p => if p.1 = k then (p.1, g p.2) else p)
          ((k, w) :: rest)).lookup k = some (g w)
        rw [List.map_cons, if_pos rfl]
        simp [List.lookup]
      · have hb : (d == k) = false := by
          simp
          exact fun h => hk h.symm
        have hv' : rest.lookup d = some v := by simpa [List.lookup, hb] using hv
        simp only [List.map_cons, if_neg hk]
        simpa [List.lookup, hb] using ih v hv'

theorem lookup_map_keyfix {κ ν : Type} [BEq κ] [LawfulBEq κ]
    (f : κ × ν → κ × ν) (d : κ)
    (hkeys : ∀ p, (f p).1 = p.1) (hfix : ∀ p, p.1 = d → f p = p) :
    ∀ m : List (κ × ν), (m.map f).lookup d = m.lookup d := by
  intro m
  induction m with
  | nil => rfl
  | cons e rest ih =>
      by_cases hk : e.1 = d
      · rw [List.map_cons, hfix e hk]
        have hb : (d == e.1) = true := by simp [hk]
        obtain ⟨k, w⟩ := e
        simp only [List.lookup, hb]
      · have hb : (d == e.1) = false := by
          simp
          exact fun h => hk h.symm
        have hb2 : (d == (f e).1) = false := by rw [hkeys e]; exact hb
        rw [List.map_cons]
        conv_lhs => rw [List.lookup]
        conv_rhs => rw [List.lookup]
        rw [hb, hb2]
        exact ih

theorem alExtend_lookup_self (m : List (String × List Entry)) (d : String)
    (es : List Entry) :
    (alExtend m d es).lookup d = some (((m.lookup d).getD []) ++ es) := by
  unfold alExtend
  cases hm : m.lookup d with
  | none =>
      rw [if_neg (by simp)]
      rw [lookup_append_none m _ d hm]
      simp [List.lookup]
  | some v =>
      rw [if_pos (show (some v).isSome = true from rfl)]
      simp only [Option.getD_some]
      exact lookup_map_update (fun l => l ++ es) d m v hm

theorem alExtend_lookup_other (m : List (String × List Entry)) (d' d : String)
    (es : List Entry) (hne : d ≠ d') :
    (alExtend m d' es).lookup d = m.lookup d := by
  unfold alExtend
  cases hm' : m.lookup d' with
  | none =>
      rw [if_neg (by simp)]
      cases hm : m.lookup d with
      | none =>
          rw [lookup_append_none m _ d hm]
          have hb : (d == d') = false := by
            simp
            exact hne
          simp [List.lookup, hb]
      | some v =>
          rw [lookup_append_some m _ d v hm]
  | some v' =>
      rw [if_pos (show (some v').isSome = true from rfl)]
      exact lookup_map_keyfix _ d
        (fun p => by by_cases hp : p.1 = d' <;> simp [hp])
        (fun p hp => by
          have : ¬ p.1 = d' := by rw [hp]; exact hne
          simp [this])
        m

theorem gExtend_lookup_self (m : List (Int × List (String × List Entry)))
    (g : Int) (d : String) (es : List Entry) :
    (gExtend m g d es).lookup g = some (alExtend ((m.lookup g).getD []) d es) := by
  unfold gExtend
  cases hm : m.lookup g with
  | none =>
      rw [if_neg (by simp)]
      rw [lookup_append_none m _ g hm]
      simp [List.lookup]
  | some v =>
      rw [if_pos (show (some v).isSome = true from rfl)]
      simp only [Option.getD_some]
      exact lookup_map_update (fun l => alExtend l d es) g m v hm

theorem gExtend_lookup_other (m : List (Int × List (String × List Entry)))
    (g' g : Int) (d : String) (es : List Entry) (hne : g ≠ g') :
    (gExtend m g' d es).lookup g = m.lookup g := by
  unfold gExtend
  cases hm' : m.lookup g' with
  | none =>
      rw [if_neg (by simp)]
      cases hm : m.lookup g with
      | none =>
          rw [lookup_append_none m _ g hm]
          have hb : (g == g') = false := by
            simp
            exact hne
          simp [List.lookup, hb]
      | some v =>
          rw [lookup_append_some m _ g v hm]
  | some v' =>
      rw [if_pos (show (some v').isSome = true from rfl)]
      exact lookup_map_keyfix _ g
        (fun p => by by_cases hp : p.1 = g' <;> simp [hp])
        (fun p hp => by
          have : ¬ p.1 = g' := by rw [hp]; exact hne
          simp [this])
        m

theorem gExtend_evidence_establish (m : List (Int × List (String × List Entry)))
    (g : Int) (d : String) (es : List Entry) (hd : d ∈ DAY_ORDER) (hes : es ≠ []) :
    ∃ d0 ∈ DAY_ORDER, ∃ mm l, (gExtend m g d es).lookup g = some mm ∧
      mm.lookup d0 = some l ∧ l ≠ [] := by
  refine ⟨d, hd, alExtend ((m.lookup g).getD []) d es,
    (((m.lookup g).getD []).lookup d).getD [] ++ es,
    gExtend_lookup_self m g d es, alExtend_lookup_self _ d es, ?_⟩
  intro hx
  cases es with
  | nil => exact hes rfl
  | cons e r =>
      have := List.append_ne_nil_of_right_ne_nil
        ((((m.lookup g).getD []).lookup d).getD []) (List.cons_ne_nil e r)
      exact this hx

theorem gExtend_evidence_preserve (m : List (Int × List (String × List Entry)))
    (g0 g : Int) (d : String) (es : List Entry)
    (h : ∃ d0 ∈ DAY_ORDER, ∃ mm l, m.lookup g0 = some mm ∧
      mm.lookup d0 = some l ∧ l ≠ []) :
    ∃ d0 ∈ DAY_ORDER, ∃ mm l, (gExtend m g d es).lookup g0 = some mm ∧
      mm.lookup d0 = some l ∧ l ≠ [] := by
  obtain ⟨d0, hd0, mm, l, hmm, hl, hne⟩ := h
  by_cases hg : g0 = g
  · subst hg
    refine ⟨d0, hd0, alExtend mm d es, ?_⟩
    rw [gExtend_lookup_self, hmm]
    by_cases hdd : d0 = d
    · subst hdd
      refine ⟨(mm.lookup d0).getD [] ++ es, ⟨rfl, alExtend_lookup_self mm d0 es, ?_⟩⟩
      rw [hl]
      simp only [Option.getD_some]
      intro hx
      rw [List.append_eq_nil] at hx
      exact hne hx.1
    · exact ⟨l, rfl, by rw [alExtend_lookup_other mm d d0 es hdd]; exact hl, hne⟩
  · exact ⟨d0, hd0, mm, l, by rw [gExtend_lookup_other m g g0 d es hg]; exact hmm, hl, hne⟩

theorem rowsFold_evidence_preserve (g : Int) :
    ∀ (rows : List (String × Entry)) (m : List (Int × List (String × List Entry)))
      (g0 : Int),
      (∃ d0 ∈ DAY_ORDER, ∃ mm l, m.lookup g0 = some mm ∧
        mm.lookup d0 = some l ∧ l ≠ []) →
      ∃ d0 ∈ DAY_ORDER, ∃ mm l,
        (rows.foldl (fun m de => gExtend m g de.1 [de.2]) m).lookup g0 = some mm ∧
          mm.lookup d0 = some l ∧ l ≠ [] := by
  intro rows
  induction rows with
  | nil => intro m g0 h; exact h
  | cons de rest ih =>
      intro m g0 h
      exact ih (gExtend m g de.1 [de.2]) g0
        (gExtend_evidence_preserve m g0 g de.1 [de.2] h)

theorem rowsFold_evidence_establish (g : Int) :
    ∀ (rows : List (String × Entry)) (m : List (Int × List (String × List Entry))),
      rows ≠ [] → (∀ de ∈ rows, de.1 ∈ DAY_ORDER) →
      ∃ d0 ∈ DAY_ORDER, ∃ mm l,
        (rows.foldl (fun m de => gExtend m g de.1 [de.2]) m).lookup g = some mm ∧
          mm.lookup d0 = some l ∧ l ≠ [] := by
  intro rows
  cases rows with
  | nil => intro m h; exact absurd rfl h
  | cons de rest =>
      intro m _ hdays
      exact rowsFold_evidence_preserve g rest (gExtend m g de.1 [de.2]) g
        (gExtend_evidence_establish m g de.1 [de.2]
          (hdays de (List.mem_cons_self _ _)) (List.cons_ne_nil _ _))

theorem ite_some_pair_fst {c : Prop} [Decidable c] (day : String) (e : Entry)
    (o : String × Entry) (h : (if c then some (day, e) else none) = some o) :
    o.1 = day := by
  by_cases hc : c
  · rw [if_pos hc] at h
    cases h
    rfl
  · rw [if_neg hc] at h
    cases h

theorem normalize_day_mem (v : String) (d : String) (h : normalize_day v = some d) :
    d ∈ DAY_ORDER := by
  have h' : Option.map (fun x => x.2) (DAY_ALIASES.find? fun a =>
      searchWord a.1.data (foldChars (normalize_space v).data)) = some d := h
  cases hf : DAY_ALIASES.find? fun a =>
      searchWord a.1.data (foldChars (normalize_space v).data) with
  | none =>
      rw [hf] at h'
      cases h'
  | some a =>
      rw [hf] at h'
      have hmem : a ∈ DAY_ALIASES := List.mem_of_find?_eq_some hf
      have hall : ∀ x ∈ DAY_ALIASES, x.2 ∈ DAY_ORDER := by decide
      cases h'
      exact hall a hmem

theorem parseHeaderedRow_day (bm : List (String × Nat)) (row : List String)
    (de : String × Entry) (h : parseHeaderedRow bm row = some de) :
    de.1 ∈ DAY_ORDER := by
  unfold parseHeaderedRow at h
  split at h
  · split at h
    · cases h
    · split at h
      · cases h
      · next day hday =>
          split at h
          · cases h
          · have hde : de.1 = day := ite_some_pair_fst day _ de h
            rw [hde]
            exact normalize_day_mem _ _ hday
  · cases h

theorem parse_group_table_rows_day (grid : List (List String))
    (de : String × Entry) (h : de ∈ (parse_group_table_rows grid).1) :
    de.1 ∈ DAY_ORDER := by
  unfold parse_group_table_rows at h
  simp only [] at h
  split at h
  · cases h
  · split at h
    · cases h
    · obtain ⟨row, _, hrow⟩ := List.mem_filterMap.mp h
      exact parseHeaderedRow_day _ row de hrow

theorem sectionFold_inv (egs : List Int) :
    ∀ (nodes : List Node) (st : SectionState),
      (∀ g ∈ st.detected, (egs ≠ [] → g ∈ egs) ∧
        ∃ d0 ∈ DAY_ORDER, ∃ mm l, st.grouped.lookup g = some mm ∧
          mm.lookup d0 = some l ∧ l ≠ []) →
      ∀ g ∈ (nodes.foldl (sectionStep egs) st).detected,
        (egs ≠ [] → g ∈ egs) ∧
        ∃ d0 ∈ DAY_ORDER, ∃ mm l,
          (nodes.foldl (sectionStep egs) st).grouped.lookup g = some mm ∧
            mm.lookup d0 = some l ∧ l ≠ [] := by
  intro nodes
  induction nodes with
  | nil => intro st h; exact h
  | cons node rest ih =>
      intro st h
      apply ih
      cases node with
      | elem text =>
          simp only [sectionStep]
          split
          · exact h
          · exact h
      | table t =>
          simp only [sectionStep]
          split
          · exact h
          · next tg hgp =>
              split
              · exact h
              · split
                · exact h
                · split
                  · exact h
                  · next hskip hgrid hrows =>
                      intro g hg
                      simp only [] at hg
                      have hrows' : (parse_group_table_rows (expand_table t)).1 ≠ [] := by
                        intro hx
                        exact hrows (by rw [hx]; rfl)
                      have hdays : ∀ de ∈ (parse_group_table_rows (expand_table t)).1,
                          de.1 ∈ DAY_ORDER :=
                        fun de hde => parse_group_table_rows_day _ de hde
                      by_cases hgold : g ∈ st.detected
                      · refine ⟨(h g hgold).1, ?_⟩
                        exact rowsFold_evidence_preserve tg _ st.grouped g (h g hgold).2
                      · have hgtg : g = tg := by
                          rcases hc : st.detected.contains tg with hfalse | htrue
                          · rw [hc] at hg
                            simp only [Bool.false_eq_true, if_false] at hg
                            rcases List.mem_append.mp hg with h1 | h1
                            · exact absurd h1 hgold
                            · simpa using h1
                          · rw [hc] at hg
                            simp only [if_true] at hg
                            exact absurd hg hgold
                        subst hgtg
                        constructor
                        · intro hegs
                          have hie : egs.isEmpty = false := by
                            cases egs with
                            | nil => exact absurd rfl hegs
                            | cons a as => rfl
                          have hcont : egs.contains g = true := by
                            rcases hc : egs.contains g with hfalse | htrue
                            · exfalso
                              apply hskip
                              rw [hie, hc]
                              rfl
                            · rfl
                          exact List.mem_of_elem_eq_true hcont
                        · exact rowsFold_evidence_establish g _ st.grouped hrows' hdays

/-- C3 counterexample: on a page with a header-only table naming groups 511
and 512 (no entry rows at all), the columnar layout reports
`detected_groups = [511, 512]` although no entry row exists for either group,
and supplying the expected set `[511]` changes `detected_groups` to `[511]` -
so the list is neither entry-evidence based nor independent of the
caller-supplied expected set. -/
theorem spec_c3_cex :
    (parse_timetable_html hdrOnlyDoc [] =
        .ok { by_group := [(511, []), (512, [])], detected_groups := [511, 512] } ∧
      ¬ claimC3At { by_group := [(511, []), (512, [])], detected_groups := [511, 512] }) ∧
    (parse_timetable_html hdrOnlyDoc [511] =
        .ok { by_group := [(511, [])], detected_groups := [511] } ∧
      ([511] : List Int) ≠ [511, 512]) := by
  refine ⟨⟨rfl, ?_⟩, ⟨rfl, by decide⟩⟩
  intro hcl
  have h5 := (hcl 511).mp (by decide)
  exact absurd h5 (by decide)

/-- C3 (amended): `detected_groups` reflects the layout's detection step. In
the sectioned layout every detected group really is evidenced - its
`by_group` entry has at least one nonempty day. In the columnar layout it is
exactly the (sorted, deduplicated) set of groups the column detector mapped
from the header cells - independent of whether any entry row exists, and
computed from the caller-supplied expected set. -/
theorem spec_c3_amended (doc : HtmlDoc) (egs : List Int) (r : ParsedTimetable)
    (h : parse_timetable_html doc egs = .ok r) :
    (parse_group_section_layout doc egs = some r →
      ∀ g ∈ r.detected_groups, ∃ days, r.by_group.lookup g = some days ∧ days ≠ []) ∧
    (parse_group_section_layout doc egs = none →
      ∃ t, select_main_table doc = some t ∧
        r.detected_groups =
          dedupSort ((detect_group_columns (expand_table t) egs).map (·.2))) := by
  constructor
  · intro hs g hmem
    obtain ⟨st, hst, hb, hd⟩ := section_layout_shape doc egs r hs
    have hmem' : g ∈ st.detected := by
      rw [hd] at hmem
      exact (dedupSort_mem_iff _ _).mp hmem
    have hinv := sectionFold_inv egs doc.nodes
      { current_group := none, grouped := [], detected := [] }
      (by intro g hg; cases hg) g (by rw [← hst]; exact hmem')
    obtain ⟨hegs, d0, hd0, mm, l, hmm, hl, hlne⟩ := hinv
    rw [← hst] at hmm
    have htarget : g ∈ dedupSort (if !egs.isEmpty then egs else st.detected) := by
      cases hie : egs.isEmpty with
      | true =>
          simp only [Bool.not_true, Bool.false_eq_true, if_false]
          exact (dedupSort_mem_iff _ _).mpr hmem'
      | false =>
          simp only [Bool.not_false, if_true]
          refine (dedupSort_mem_iff _ _).mpr (hegs ?_)
          intro hx
          rw [hx] at hie
          cases hie
    rw [hb]
    unfold grouped_to_days
    refine ⟨_, lookup_map_self _ _ g htarget, ?_⟩
    have hld : ((((st.grouped.lookup g).getD []).lookup d0).getD []) = l := by
      rw [hmm]
      simp only [Option.getD_some]
      rw [hl]
      rfl
    have hfd : (fun day =>
        let day_entries := (((st.grouped.lookup g).getD []).lookup day).getD []
        if day_entries.isEmpty then none else some (day, day_entries)) d0 =
          some (d0, l) := by
      simp only []
      rw [hld]
      rw [if_neg ?_]
      intro hx
      cases l with
      | nil => exact hlne rfl
      | cons a as => cases hx
    exact List.ne_nil_of_mem (List.mem_filterMap.mpr ⟨d0, hd0, hfd⟩)
  · intro hs
    unfold parse_timetable_html at h
    rw [hs] at h
    obtain ⟨t, hm, D, hD, hd, _⟩ := columnar_layout_shape doc egs r h
    exact ⟨t, hm, by rw [hd, hD]⟩

/-- C3 witness: both amended clauses at concrete parses. -/
theorem spec_c3_witness :
    (parse_timetable_html sectionWitDoc [] = .ok
        { by_group := [(211, [("monday",
            [{ time := "8–10", frequency := "weekly", course := "Algebra",
               type := "lecture", room := "Algebra", instructor := "" }])])],
          detected_groups := [211] } ∧
      ∀ g ∈ ([211] : List Int),
        ∃ days, ([(211, [("monday",
            [{ time := "8–10", frequency := "weekly", course := "Algebra",
               type := "lecture", room := "Algebra", instructor := "" }])])] :
          List (Int × List (String × List Entry))).lookup g = some days ∧ days ≠ []) ∧
    (parse_group_section_layout hdrOnlyDoc [] = none ∧
      ∃ t, select_main_table hdrOnlyDoc = some t ∧
        ([511, 512] : List Int) =
          dedupSort ((detect_group_columns (expand_table t) []).map (·.2))) := by
  refine ⟨⟨rfl, ?_⟩, rfl, ?_⟩
  · exact (spec_c3_amended sectionWitDoc [] _ rfl).1 rfl
  · exact (spec_c3_amended hdrOnlyDoc []
      { by_group := [(511, []), (512, [])], detected_groups := [511, 512] } rfl).2 rfl

/-! Claim C5: header rejection and its page-level consequences. -/

theorem bestHeader_aux :
    ∀ (l : List (Nat × List String)) (acc : Int × List (String × Nat) × Int),
      (l.foldl (fun best p =>
        let mapping := headerRowMapping p.2
        if best.2.2 < Int.ofNat mapping.length then
          (Int.ofNat p.1, mapping, Int.ofNat mapping.length)
        else best) acc) = acc ∨
      ∃ p ∈ l, (l.foldl (fun best p =>
        let mapping := headerRowMapping p.2
        if best.2.2 < Int.ofNat mapping.length then
          (Int.ofNat p.1, mapping, Int.ofNat mapping.length)
        else best) acc).2.1 = headerRowMapping p.2 := by
  intro l
  induction l with
  | nil => intro acc; exact Or.inl rfl
  | cons p rest ih =>
      intro acc
      simp only [List.foldl_cons]
      by_cases hc : acc.2.2 < Int.ofNat (headerRowMapping p.2).length
      · rw [if_pos hc]
        rcases ih (Int.ofNat p.1, headerRowMapping p.2,
            Int.ofNat (headerRowMapping p.2).length) with h1 | ⟨q, hq, h2⟩
        · right
          exact ⟨p, List.mem_cons_self _ _, by rw [h1]⟩
        · right
          exact ⟨q, List.mem_cons_of_mem _ hq, h2⟩
      · rw [if_neg hc]
        rcases ih acc with h1 | ⟨q, hq, h2⟩
        · exact Or.inl h1
        · right
          exact ⟨q, List.mem_cons_of_mem _ hq, h2⟩

theorem headerRowMapping_lookup_aux :
    ∀ (l : List (Nat × String)) (m0 : List (String × Nat)) (k : String) (c : Nat),
      (l.foldl (fun m p =>
        match header_name_to_key p.2 with
        | some key => if (m.lookup key).isSome then m else m ++ [(key, p.1)]
        | none => m) m0).lookup k = some c →
      (∃ c0, m0.lookup k = some c0) ∨ ∃ p ∈ l, header_name_to_key p.2 = some k := by
  intro l
  induction l with
  | nil =>
      intro m0 k c h
      exact Or.inl ⟨c, h⟩
  | cons p rest ih =>
      intro m0 k c h
      show _ ∨ _
      have hstep : (rest.foldl (fun (m : List (String × Nat)) (p : Nat × String) =>
          match header_name_to_key p.2 with
          | some key => if (m.lookup key).isSome then m else m ++ [(key, p.1)]
          | none => m)
          (match header_name_to_key p.2 with
           | some key => if (m0.lookup key).isSome then m0 else m0 ++ [(key, p.1)]
           | none => m0)).lookup k = some c := h
      cases hk : header_name_to_key p.2 with
      | none =>
          rw [hk] at hstep
          simp only [] at hstep
          rcases ih m0 k c hstep with h1 | ⟨q, hq, h2⟩
          · exact Or.inl h1
          · exact Or.inr ⟨q, List.mem_cons_of_mem _ hq, h2⟩
      | some key =>
          rw [hk] at hstep
          simp only [] at hstep
          by_cases hs : (m0.lookup key).isSome
          · rw [if_pos hs] at hstep
            rcases ih m0 k c hstep with h1 | ⟨q, hq, h2⟩
            · exact Or.inl h1
            · exact Or.inr ⟨q, List.mem_cons_of_mem _ hq, h2⟩
          · rw [if_neg hs] at hstep
            rcases ih (m0 ++ [(key, p.1)]) k c hstep with ⟨c0, h1⟩ | ⟨q, hq, h2⟩
            · cases hm0 : m0.lookup k with
              | some c1 => exact Or.inl ⟨c1, rfl⟩
              | none =>
                  rw [lookup_append_none m0 _ k hm0] at h1
                  have hkk : k = key := by
                    cases hb : (k == key) with
                    | true => exact eq_of_beq hb
                    | false =>
                        rw [show List.lookup k [(key, p.1)] =
                          match k == key with
                          | true => some p.1
                          | false => List.lookup k [] from rfl, hb] at h1
                        cases h1
                  right
                  exact ⟨p, List.mem_cons_self _ _, by rw [hk, hkk]⟩
            · exact Or.inr ⟨q, List.mem_cons_of_mem _ hq, h2⟩

theorem reject_of_no_daytime (grid : List (List String))
    (H : ∀ row ∈ grid.take 4, ¬ rowRecognizesDayTime row) :
    parse_group_table_rows grid = ([], -1) := by
  rcases bestHeader_aux (grid.take 4).enum (-1, [], -1) with h1 | ⟨p, hp, h2⟩
  · have h1' : bestHeaderRow grid = (-1, [], -1) := h1
    unfold parse_group_table_rows
    rw [h1']
    rfl
  · have h2' : (bestHeaderRow grid).2.1 = headerRowMapping p.2 := h2
    have hrow : p.2 ∈ grid.take 4 := List.snd_mem_of_mem_enum hp
    unfold parse_group_table_rows
    simp only []
    split
    · rfl
    · split
      · rfl
      · next hne hcond =>
          exfalso
          rw [h2'] at hcond
          cases hld : (headerRowMapping p.2).lookup "day" with
          | none =>
              apply hcond
              rw [hld]
              rfl
          | some cday =>
              cases hlt : (headerRowMapping p.2).lookup "time" with
              | none =>
                  apply hcond
                  rw [hlt]
                  simp
              | some ctime =>
                  apply H p.2 hrow
                  constructor
                  · rcases headerRowMapping_lookup_aux p.2.enum [] "day" cday hld with
                      ⟨c0, hc0⟩ | ⟨q, hq, hkey⟩
                    · cases hc0
                    · exact ⟨q.2, List.snd_mem_of_mem_enum hq, hkey⟩
                  · rcases headerRowMapping_lookup_aux p.2.enum [] "time" ctime hlt with
                      ⟨c0, hc0⟩ | ⟨q, hq, hkey⟩
                    · cases hc0
                    · exact ⟨q.2, List.snd_mem_of_mem_enum hq, hkey⟩

theorem sectionFold_detected_of_rejected (egs : List Int) :
    ∀ (nodes : List Node) (st : SectionState),
      (∀ t : HtmlTable, Node.table t ∈ nodes →
        (parse_group_table_rows (expand_table t)).1 = []) →
      (nodes.foldl (sectionStep egs) st).detected = st.detected := by
  intro nodes
  induction nodes with
  | nil => intro st _; rfl
  | cons node rest ih =>
      intro st hrej
      show ((rest.foldl (sectionStep egs) (sectionStep egs st node))).detected = _
      rw [ih (sectionStep egs st node)
        (fun t ht => hrej t (List.mem_cons_of_mem _ ht))]
      cases node with
      | elem text =>
          simp only [sectionStep]
          split
          · rfl
          · rfl
      | table t =>
          have hr : (parse_group_table_rows (expand_table t)).1 = [] :=
            hrej t (List.mem_cons_self _ _)
          simp only [sectionStep]
          split
          · rfl
          · split
            · rfl
            · split
              · rfl
              · split
                · rfl
                · next hrows =>
                    exfalso
                    apply hrows
                    rw [hr]
                    rfl

theorem section_none_of_only_rejected (doc : HtmlDoc) (egs : List Int)
    (hrej : ∀ t : HtmlTable, Node.table t ∈ doc.nodes →
      (parse_group_table_rows (expand_table t)).1 = []) :
    parse_group_section_layout doc egs = none := by
  unfold parse_group_section_layout
  simp only []
  rw [sectionFold_detected_of_rejected egs doc.nodes _ hrej]
  rfl

theorem docTables_mem (doc : HtmlDoc) (t : HtmlTable)
    (h : Node.table t ∈ doc.nodes) : t ∈ docTables doc := by
  unfold docTables
  exact List.mem_filterMap.mpr ⟨Node.table t, h, rfl⟩

theorem only_rejected_table_error_iff (doc : HtmlDoc) (egs : List Int) (t : HtmlTable)
    (hdt : docTables doc = [t])
    (hrej : parse_group_table_rows (expand_table t) = ([], -1)) :
    (∃ e, parse_timetable_html doc egs = .error e) ↔
      (expand_table t = [] ∨ detect_group_columns (expand_table t) egs = []) := by
  have honly : ∀ t' : HtmlTable, Node.table t' ∈ doc.nodes → t' = t := by
    intro t' ht'
    have : t' ∈ docTables doc := docTables_mem doc t' ht'
    rw [hdt] at this
    simpa using this
  have hsec : parse_group_section_layout doc egs = none := by
    apply section_none_of_only_rejected
    intro t' ht'
    rw [honly t' ht', hrej]
  have hsel : select_main_table doc = some t := by
    unfold select_main_table
    rw [hdt]
    rfl
  have hparse : parse_timetable_html doc egs = parse_columnar_layout doc egs := by
    unfold parse_timetable_html
    rw [hsec]
  constructor
  · rintro ⟨e, he⟩
    rw [hparse] at he
    unfold parse_columnar_layout at he
    rw [hsel] at he
    simp only [] at he
    split at he
    · next hG => exact Or.inl (List.isEmpty_iff.mp hG)
    · split at he
      · next hC => exact Or.inr (List.isEmpty_iff.mp hC)
      · cases he
  · intro hcond
    rw [hparse]
    unfold parse_columnar_layout
    rw [hsel]
    simp only []
    cases hG : (expand_table t).isEmpty with
    | true => exact ⟨_, rfl⟩
    | false =>
        rcases hcond with hc | hc
        · rw [hc] at hG
          cases hG
        · rw [show (detect_group_columns (expand_table t) egs).isEmpty = true by
            rw [hc]; rfl]
          exact ⟨_, rfl⟩

/-- C5 counterexample: the only table of `rejHdrDoc` is rejected by
explicit-header parsing (no recognised day+time header row), yet the overall
parse does not raise - the columnar fallback resolves group 511 from the
header and even extracts an entry. -/
theorem spec_c5_cex :
    parse_group_table_rows (expand_table rejTable) = ([], -1) ∧
    docTables rejHdrDoc = [rejTable] ∧
    parse_timetable_html rejHdrDoc [] =
      .ok { by_group := [(511, [("monday",
              [{ time := "8–10", frequency := "weekly", course := "Programare",
                 type := "lecture", room := "Programare", instructor := "" }])])],
            detected_groups := [511] } := by
  exact ⟨by decide, rfl, rfl⟩

/-- C5 (amended): explicit-header parsing rejects a table (zero entries,
index -1) whenever no row among the first four grid rows recognises both a
day and a time header token; when such a rejected table is the only table on
the page, the overall parse raises a structural error if and only if the
columnar fallback also fails - the grid is empty or no group columns can be
resolved (even by the expected-set fallback). -/
theorem spec_c5_amended :
    (∀ grid : List (List String),
      (∀ row ∈ grid.take 4, ¬ rowRecognizesDayTime row) →
      parse_group_table_rows grid = ([], -1)) ∧
    (∀ (doc : HtmlDoc) (egs : List Int) (t : HtmlTable),
      docTables doc = [t] →
      parse_group_table_rows (expand_table t) = ([], -1) →
      ((∃ e, parse_timetable_html doc egs = .error e) ↔
        (expand_table t = [] ∨ detect_group_columns (expand_table t) egs = []))) :=
  ⟨reject_of_no_daytime, only_rejected_table_error_iff⟩

/-- C5 witness: a concrete page whose only table is rejected and carries no
group tokens, so the parse raises. -/
theorem spec_c5_witness :
    (∀ row ∈ (expand_table rejNoGroupTable).take 4, ¬ rowRecognizesDayTime row) ∧
    parse_group_table_rows (expand_table rejNoGroupTable) = ([], -1) ∧
    docTables rejNoGroupDoc = [rejNoGroupTable] ∧
    detect_group_columns (expand_table rejNoGroupTable) [] = [] ∧
    ∃ e, parse_timetable_html rejNoGroupDoc [] = .error e := by
  have h1 : ∀ row ∈ (expand_table rejNoGroupTable).take 4, ¬ rowRecognizesDayTime row := by
    have h0 : ∀ row ∈ (expand_table rejNoGroupTable).take 4,
        ¬ ((∃ cell ∈ row, header_name_to_key cell = some "day") ∧
           ∃ cell ∈ row, header_name_to_key cell = some "time") := by decide
    exact h0
  exact ⟨h1, spec_c5_amended.1 _ h1, rfl, by decide,
    (spec_c5_amended.2 rejNoGroupDoc [] rejNoGroupTable rfl
      (spec_c5_amended.1 _ h1)).mpr (Or.inr (by decide))⟩

lemma spansLookup_cons (e : Nat × Nat × String) (rest : List (Nat × Nat × String))
    (q : Nat) :
    spansLookup (e :: rest) q = if e.1 = q then some e.2 else spansLookup rest q := rfl


lemma spansErase_cons (e : Nat × Nat × String) (rest : List (Nat × Nat × String))
    (col : Nat) :
    spansErase (e :: rest) col =
      if e.1 ≠ col then e :: spansErase rest col else spansErase rest col := by
  show List.filter _ (e :: rest) = _
  rw [List.filter_cons]
  by_cases he : e.1 = col
  · rw [if_neg (by simp [he]), if_neg (by simp [he])]
    rfl
  · rw [if_pos (by simp [he]), if_pos he]
    rfl


lemma spansLookup_erase_self (l : List (Nat × Nat × String)) (col : Nat) :
    spansLookup (spansErase l col) col = none := by
  induction l with
  | nil => rfl
  | cons e rest ih =>
      rw [spansErase_cons]
      by_cases he : e.1 = col
      · rw [if_neg (by simp [he])]
        exact ih
      · rw [if_pos he, spansLookup_cons, if_neg he]
        exact ih


lemma spansLookup_erase_ne (l : List (Nat × Nat × String)) (col q : Nat)
    (h : q ≠ col) : spansLookup (spansErase l col) q = spansLookup l q := by
  induction l with
  | nil => rfl
  | cons e rest ih =>
      rw [spansErase_cons, spansLookup_cons]
      by_cases he : e.1 = col
      · rw [if_neg (by simp [he]), if_neg (by omega : ¬ e.1 = q)]
        exact ih
      · rw [if_pos he, spansLookup_cons, ih]


lemma spansLookup_set_self (l : List (Nat × Nat × String)) (col : Nat)
    (v : Nat × String) : spansLookup (spansSet l col v) col = some v := by
  show spansLookup ((col, v.1, v.2) :: spansErase l col) col = some v
  rw [spansLookup_cons, if_pos rfl]


lemma spansLookup_set_ne (l : List (Nat × Nat × String)) (col q : Nat)
    (v : Nat × String) (h : q ≠ col) :
    spansLookup (spansSet l col v) q = spansLookup l q := by
  show spansLookup ((col, v.1, v.2) :: spansErase l col) q = _
  rw [spansLookup_cons, if_neg (by omega : ¬ col = q)]
  exact spansLookup_erase_ne l col q h


lemma numGE_le_length (l : List (Nat × Nat × String)) (col : Nat) :
    numGE l col ≤ l.length :=
  List.length_filter_le _ l


lemma numGE_mono (l : List (Nat × Nat × String)) (col : Nat) :
    numGE l (col + 1) ≤ numGE l col := by
  induction l with
  | nil => exact Nat.le_refl _
  | cons e rest ih =>
      simp only [numGE, List.filter_cons] at ih ⊢
      by_cases h1 : col + 1 ≤ e.1
      · rw [if_pos (by simpa using h1), if_pos (by simp; omega)]
        simpa using Nat.succ_le_succ ih
      · rw [if_neg (by simpa using h1)]
        by_cases h2 : col ≤ e.1
        · rw [if_pos (by simpa using h2)]
          simp only [List.length_cons]
          omega
        · rw [if_neg (by simpa using h2)]
          exact ih


lemma numGE_strict (l : List (Nat × Nat × String)) (col : Nat) (rt : Nat × String)
    (h : spansLookup l col = some rt) : numGE l (col + 1) < numGE l col := by
  induction l with
  | nil => cases h
  | cons e rest ih =>
      rw [spansLookup_cons] at h
      simp only [numGE, List.filter_cons] at ih ⊢
      by_cases he : e.1 = col
      · rw [if_neg (by simp [he]), if_pos (by simp [he])]
        have := numGE_mono rest col
        simp only [numGE] at this
        simp only [List.length_cons]
        omega
      · rw [if_neg he] at h
        have hr := ih h
        by_cases h1 : col + 1 ≤ e.1
        · rw [if_pos (by simpa using h1), if_pos (by simp; omega)]
          simpa using Nat.succ_lt_succ hr
        · rw [if_neg (by simpa using h1)]
          by_cases h2 : col ≤ e.1
          · rw [if_pos (by simpa using h2)]
            simp only [List.length_cons]
            omega
          · rw [if_neg (by simpa using h2)]
            exact hr


lemma numGE_erase (l : List (Nat × Nat × String)) (col : Nat) :
    numGE (spansErase l col) (col + 1) = numGE l (col + 1) := by
  induction l with
  | nil => rfl
  | cons e rest ih =>
      rw [spansErase_cons]
      by_cases he : e.1 = col
      · rw [if_neg (by simp [he])]
        simp only [numGE, List.filter_cons] at ih ⊢
        rw [if_neg (by simp [he])]
        exact ih
      · rw [if_pos he]
        simp only [numGE, List.filter_cons] at ih ⊢
        by_cases h1 : col + 1 ≤ e.1
        · rw [if_pos (by simpa using h1), if_pos (by simpa using h1)]
          simpa using ih
        · rw [if_neg (by simpa using h1), if_neg (by simpa using h1)]
          exact ih


lemma numGE_set (l : List (Nat × Nat × String)) (col : Nat) (v : Nat × String) :
    numGE (spansSet l col v) (col + 1) = numGE l (col + 1) := by
  show numGE ((col, v.1, v.2) :: spansErase l col) (col + 1) = _
  simp only [numGE, List.filter_cons]
  rw [if_neg (by simp)]
  exact numGE_erase l col


lemma getD_append_lt {l l' : List String} {q : Nat} (h : q < l.length) :
    (l ++ l').getD q "" = l.getD q "" := by
  rw [List.getD_eq_getElem?_getD, List.getD_eq_getElem?_getD,
    List.getElem?_append, if_pos h]


lemma getD_append_self {l : List String} {x : String} :
    (l ++ [x]).getD l.length "" = x := by
  rw [List.getD_eq_getElem?_getD, List.getElem?_append_right (Nat.le_refl _)]
  simp


lemma fillSpanF_spec (fuel : Nat) :
    ∀ (spans : List (Nat × Nat × String)) (row : List String) (col : Nat),
      numGE spans col < fuel → row.length = col →
      FillOut spans row col (fillSpanF fuel spans row col) := by
  induction fuel with
  | zero => intro spans row col hfuel _; exact absurd hfuel (Nat.not_lt_zero _)
  | succ fuel ih =>
      intro spans row col hfuel hlen
      cases h : spansLookup spans col with
      | none =>
          rw [show fillSpanF (fuel + 1) spans row col = (spans, row, col) from by
            simp only [fillSpanF, h]]
          refine ⟨Nat.le_refl _, hlen, h, fun q _ => rfl, fun q _ => rfl, ?_⟩
          intro q h1 h2
          exact absurd (Nat.lt_of_le_of_lt h1 h2) (Nat.lt_irrefl col)
      | some rt =>
          have hstep : fillSpanF (fuel + 1) spans row col =
              fillSpanF fuel
                (if rt.1 ≤ 1 then spansErase spans col
                 else spansSet spans col (rt.1 - 1, rt.2))
                (row ++ [rt.2]) (col + 1) := by
            simp only [fillSpanF, h]
          have hnum2 : numGE
              (if rt.1 ≤ 1 then spansErase spans col
               else spansSet spans col (rt.1 - 1, rt.2)) (col + 1) < fuel := by
            have hs := numGE_strict spans col rt h
            by_cases hr1 : rt.1 ≤ 1
            · rw [if_pos hr1, numGE_erase]
              omega
            · rw [if_neg hr1, numGE_set]
              omega
          have hlen2 : (row ++ [rt.2]).length = col + 1 := by
            simp [hlen]
          obtain ⟨a', b', c', d', e', f'⟩ := ih _ (row ++ [rt.2]) (col + 1) hnum2 hlen2
          rw [hstep]
          refine ⟨by omega, b', c', ?_, ?_, ?_⟩
          · intro q hq
            have hne : q ≠ col := by omega
            rw [d' q (by omega)]
            by_cases hr1 : rt.1 ≤ 1
            · rw [if_pos hr1]
              exact spansLookup_erase_ne spans col q hne
            · rw [if_neg hr1]
              exact spansLookup_set_ne spans col q _ hne
          · intro q hq
            rw [e' q (by omega)]
            exact getD_append_lt (by omega)
          · intro q hq1 hq2
            by_cases hqc : q = col
            · subst hqc
              refine ⟨rt.1, rt.2, by rw [h], ?_, ?_, ?_⟩
              · rw [e' q (by omega)]
                have : q = row.length := hlen.symm
                rw [this]
                exact getD_append_self
              · intro h2
                rw [d' q (by omega), if_neg (by omega)]
                exact spansLookup_set_self spans q _
              · intro h1
                rw [d' q (by omega), if_pos h1]
                exact spansLookup_erase_self spans q
            · obtain ⟨rq, tq, hlu, hrow, hs2, hs1⟩ := f' q (by omega) hq2
              refine ⟨rq, tq, ?_, hrow, hs2, hs1⟩
              rw [← hlu]
              by_cases hr1 : rt.1 ≤ 1
              · rw [if_pos hr1, spansLookup_erase_ne spans col q hqc]
              · rw [if_neg hr1, spansLookup_set_ne spans col q _ hqc]


/-- Any fuel strictly above the pending-span count gives the same result: the
promised fuel irrelevance of `fillSpanF`. -/
theorem fillSpanF_fuel_irrel :
    ∀ (f1 f2 : Nat) (spans : List (Nat × Nat × String)) (row : List String)
      (col : Nat), numGE spans col < f1 → numGE spans col < f2 →
      fillSpanF f1 spans row col = fillSpanF f2 spans row col := by
  intro f1
  induction f1 with
  | zero => intro f2 spans row col h1 _; exact absurd h1 (Nat.not_lt_zero _)
  | succ f1 ih =>
      intro f2 spans row col h1 h2
      cases f2 with
      | zero => exact absurd h2 (Nat.not_lt_zero _)
      | succ f2 =>
          cases h : spansLookup spans col with
          | none => simp only [fillSpanF, h]
          | some rt =>
              simp only [fillSpanF, h]
              have hs := numGE_strict spans col rt h
              have hnum : ∀ m : Nat, numGE spans col < m + 1 →
                  numGE
                    (if rt.1 ≤ 1 then spansErase spans col
                     else spansSet spans col (rt.1 - 1, rt.2)) (col + 1) < m := by
                intro m hm
                by_cases hr1 : rt.1 ≤ 1
                · rw [if_pos hr1, numGE_erase]; omega
                · rw [if_neg hr1, numGE_set]; omega
              exact ih f2 _ _ _ (hnum f1 h1) (hnum f2 h2)


lemma fillSpan_spec (spans : List (Nat × Nat × String)) (row : List String)
    (col : Nat) (hlen : row.length = col) :
    FillOut spans row col (fillSpan spans row col) :=
  fillSpanF_spec (spans.length + 1) spans row col
    (Nat.lt_succ_of_le (numGE_le_length spans col)) hlen


lemma placeCell_spec (text : String) (rs : Nat) :
    ∀ (cs : Nat) (spans : List (Nat × Nat × String)) (row : List String)
      (col : Nat), row.length = col →
      PlaceOut text rs cs spans row col (placeCell text rs cs spans row col) := by
  intro cs
  induction cs with
  | zero =>
      intro spans row col hlen
      refine ⟨rfl, hlen, fun q _ => rfl, ?_, fun q _ => rfl⟩
      intro q h1 h2
      exact absurd (Nat.lt_of_le_of_lt h1 h2) (Nat.lt_irrefl col)
  | succ cs ih =>
      intro spans row col hlen
      have hstep : placeCell text rs (cs + 1) spans row col =
          placeCell text rs cs
            (if 1 < rs then spansSet spans col (rs - 1, text) else spans)
            (row ++ [text]) (col + 1) := rfl
      have hlen2 : (row ++ [text]).length = col + 1 := by simp [hlen]
      obtain ⟨a', b', c', d', e'⟩ := ih
        (if 1 < rs then spansSet spans col (rs - 1, text) else spans)
        (row ++ [text]) (col + 1) hlen2
      rw [hstep]
      refine ⟨by omega, b', ?_, ?_, ?_⟩
      · intro q hq
        rw [c' q (by omega)]
        exact getD_append_lt (by omega)
      · intro q hq1 hq2
        by_cases hqc : q = col
        · subst hqc
          refine ⟨?_, ?_⟩
          · rw [c' q (by omega)]
            have : q = row.length := hlen.symm
            rw [this]
            exact getD_append_self
          · intro h2
            rw [e' q (by omega), if_pos (by omega : 1 < rs)]
            exact spansLookup_set_self spans q _
        · exact d' q (by omega) (by omega)
      · intro q hq
        have hne : q ≠ col := by omega
        rw [e' q (by omega)]
        by_cases hr1 : 1 < rs
        · rw [if_pos hr1]
          exact spansLookup_set_ne spans col q _ hne
        · rw [if_neg hr1]


lemma mem_range'_bounds :
    ∀ (n s q : Nat), q ∈ List.range' s n → s ≤ q ∧ q < s + n := by
  intro n
  induction n with
  | zero => intro s q h; cases h
  | succ n ih =>
      intro s q h
      rw [List.range'_succ] at h
      cases h with
      | head => omega
      | tail _ h =>
          have := ih (s + 1) q h
          omega


lemma contains_mem_nat : ∀ (l : List Nat) (c : Nat), l.contains c = true → c ∈ l := by
  intro l
  induction l with
  | nil => intro c h; cases h
  | cons a rest ih =>
      intro c h
      rw [List.contains_cons] at h
      cases (Bool.or_eq_true _ _).mp h with
      | inl h =>
          have : c = a := by simpa using h
          rw [this]
          exact List.mem_cons_self a rest
      | inr h => exact List.mem_cons_of_mem a (ih c h)


lemma spansLookup_mem :
    ∀ (l : List (Nat × Nat × String)) (c : Nat) (rt : Nat × String),
      spansLookup l c = some rt → (c, rt) ∈ l := by
  intro l
  induction l with
  | nil => intro c rt h; cases h
  | cons e rest ih =>
      intro c rt h
      rw [spansLookup_cons] at h
      by_cases he : e.1 = c
      · rw [if_pos he] at h
        have hv : rt = e.2 := by injection h with h'; exact h'.symm
        rw [hv, ← he]
        exact List.mem_cons_self e rest
      · rw [if_neg he] at h
        exact List.mem_cons_of_mem e (ih c rt h)


lemma rowInv_init (spans0 : List (Nat × Nat × String)) (idx : Nat) :
    RowInv spans0 idx
      { spans := (fillSpan spans0 [] 0).1, row := (fillSpan spans0 [] 0).2.1,
        col := (fillSpan spans0 [] 0).2.2,
        consumed := List.range' 0 (fillSpan spans0 [] 0).2.2,
        placements := [] } := by
  obtain ⟨a, b, -, d, -, f⟩ := fillSpan_spec spans0 [] 0 rfl
  refine ⟨b, ?_, ?_, ?_⟩
  · intro q hq
    exact d q (Or.inr hq)
  · intro q hq
    obtain ⟨hq1, hq2⟩ := mem_range'_bounds _ _ _ hq
    obtain ⟨rq, tq, hlu, hrow, hs2, hs1⟩ := f q (Nat.zero_le _) (by omega)
    refine ⟨?_, rq, tq, hlu, hrow, hs2, hs1⟩
    show q < (fillSpan spans0 [] 0).2.2
    omega
  · intro p hp
    cases hp


lemma rowStep_eq (idx : Nat) (st : RowState) (cell : HtmlCell) :
    rowStep idx st cell =
      { spans := (placeCell (normalize_space cell.text true)
            (parseSpan cell.rowspan) (parseSpan cell.colspan)
            (fillSpan st.spans st.row st.col).1
            (fillSpan st.spans st.row st.col).2.1
            (fillSpan st.spans st.row st.col).2.2).1,
        row := (placeCell (normalize_space cell.text true)
            (parseSpan cell.rowspan) (parseSpan cell.colspan)
            (fillSpan st.spans st.row st.col).1
            (fillSpan st.spans st.row st.col).2.1
            (fillSpan st.spans st.row st.col).2.2).2.1,
        col := (placeCell (normalize_space cell.text true)
            (parseSpan cell.rowspan) (parseSpan cell.colspan)
            (fillSpan st.spans st.row st.col).1
            (fillSpan st.spans st.row st.col).2.1
            (fillSpan st.spans st.row st.col).2.2).2.2,
        consumed := st.consumed ++
          List.range' st.col ((fillSpan st.spans st.row st.col).2.2 - st.col),
        placements := st.placements ++
          [⟨normalize_space cell.text true, idx,
            (fillSpan st.spans st.row st.col).2.2, parseSpan cell.rowspan,
            parseSpan cell.colspan⟩] } := rfl


lemma rowInv_step_core (spans0 : List (Nat × Nat × String)) (idx : Nat)
    (st : RowState) (text : String) (rs cs : Nat)
    (f pl : List (Nat × Nat × String) × List String × Nat)
    (hfe : f = fillSpan st.spans st.row st.col)
    (hple : pl = placeCell text rs cs f.1 f.2.1 f.2.2)
    (h : RowInv spans0 idx st) :
    RowInv spans0 idx
      { spans := pl.1, row := pl.2.1, col := pl.2.2,
        consumed := st.consumed ++ List.range' st.col (f.2.2 - st.col),
        placements := st.placements ++ [⟨text, idx, f.2.2, rs, cs⟩] } := by
  obtain ⟨h1, h2, h3, h4⟩ := h
  have hfS : FillOut st.spans st.row st.col f := by
    rw [hfe]
    exact fillSpan_spec st.spans st.row st.col h1
  obtain ⟨fa, fb, -, fd, fe', ff⟩ := hfS
  have hpS : PlaceOut text rs cs f.1 f.2.1 f.2.2 pl := by
    rw [hple]
    exact placeCell_spec text rs cs f.1 f.2.1 f.2.2 fb
  obtain ⟨pa, pb, pc', pd, pe⟩ := hpS
  refine ⟨pb, ?_, ?_, ?_⟩
  · show ∀ q, pl.2.2 ≤ q → spansLookup pl.1 q = spansLookup spans0 q
    intro q hq
    rw [pe q (Or.inr (by omega)), fd q (Or.inr (by omega))]
    exact h2 q (by omega)
  · show ∀ q ∈ st.consumed ++ List.range' st.col (f.2.2 - st.col), q < pl.2.2 ∧
      ∃ rq tq, spansLookup spans0 q = some (rq, tq) ∧
        pl.2.1.getD q "" = tq ∧
        (2 ≤ rq → spansLookup pl.1 q = some (rq - 1, tq)) ∧
        (rq ≤ 1 → spansLookup pl.1 q = none)
    intro q hq
    cases List.mem_append.mp hq with
    | inl hold =>
        obtain ⟨hqlt, rq, tq, hlu, hrow, hs2, hs1⟩ := h3 q hold
        refine ⟨by omega, rq, tq, hlu, ?_, ?_, ?_⟩
        · rw [pc' q (by omega), fe' q (by omega)]
          exact hrow
        · intro h2r
          rw [pe q (Or.inl (by omega)), fd q (Or.inl (by omega))]
          exact hs2 h2r
        · intro h1r
          rw [pe q (Or.inl (by omega)), fd q (Or.inl (by omega))]
          exact hs1 h1r
    | inr hnew =>
        obtain ⟨hq1, hq2⟩ := mem_range'_bounds _ _ _ hnew
        obtain ⟨rq, tq, hlu, hrow, hs2, hs1⟩ := ff q (by omega) (by omega)
        refine ⟨by omega, rq, tq, ?_, ?_, ?_, ?_⟩
        · rw [← h2 q (by omega)]
          exact hlu
        · rw [pc' q (by omega)]
          exact hrow
        · intro h2r
          rw [pe q (Or.inl (by omega))]
          exact hs2 h2r
        · intro h1r
          rw [pe q (Or.inl (by omega))]
          exact hs1 h1r
  · show ∀ p ∈ st.placements ++ [(⟨text, idx, f.2.2, rs, cs⟩ : Placement)],
      p.row = idx ∧ p.col + p.cols ≤ pl.2.2 ∧
      ∀ j, p.col ≤ j → j < p.col + p.cols →
        pl.2.1.getD j "" = p.text ∧
        (2 ≤ p.rows → spansLookup pl.1 j = some (p.rows - 1, p.text))
    intro p hp
    cases List.mem_append.mp hp with
    | inl hold =>
        obtain ⟨hprow, hple2, hcols⟩ := h4 p hold
        refine ⟨hprow, by omega, ?_⟩
        intro j hj1 hj2
        obtain ⟨hcell, hspan⟩ := hcols j hj1 hj2
        refine ⟨?_, ?_⟩
        · rw [pc' j (by omega), fe' j (by omega)]
          exact hcell
        · intro h2r
          rw [pe j (Or.inl (by omega)), fd j (Or.inl (by omega))]
          exact hspan h2r
    | inr hnewm =>
        have hpeq : p = ⟨text, idx, f.2.2, rs, cs⟩ := List.mem_singleton.mp hnewm
        subst hpeq
        refine ⟨rfl, ?_, ?_⟩
        · show f.2.2 + cs ≤ pl.2.2
          omega
        · show ∀ j, f.2.2 ≤ j → j < f.2.2 + cs →
            pl.2.1.getD j "" = text ∧
            (2 ≤ rs → spansLookup pl.1 j = some (rs - 1, text))
          intro j hj1 hj2
          exact pd j hj1 hj2


lemma foldl_rowStep_inv (spans0 : List (Nat × Nat × String)) (idx : Nat) :
    ∀ (cells : List HtmlCell) (st : RowState), RowInv spans0 idx st →
      RowInv spans0 idx (cells.foldl (rowStep idx) st) := by
  intro cells
  induction cells with
  | nil => intro st h; exact h
  | cons c rest ih =>
      intro st h
      rw [List.foldl_cons]
      refine ih (rowStep idx st c) ?_
      rw [rowStep_eq]
      exact rowInv_step_core spans0 idx st (normalize_space c.text true)
        (parseSpan c.rowspan) (parseSpan c.colspan) _ _ rfl rfl h


lemma processRow_core (spans0 : List (Nat × Nat × String)) (idx : Nat)
    (cells : List HtmlCell) (stF : RowState)
    (ff : List (Nat × Nat × String) × List String × Nat)
    (hstF : stF = cells.foldl (rowStep idx)
      { spans := (fillSpan spans0 [] 0).1, row := (fillSpan spans0 [] 0).2.1,
        col := (fillSpan spans0 [] 0).2.2,
        consumed := List.range' 0 (fillSpan spans0 [] 0).2.2,
        placements := [] })
    (hff : ff = fillSpan stF.spans stF.row stF.col) :
    ((spans0.all fun e =>
        (stF.consumed ++ List.range' stF.col (ff.2.2 - stF.col)).contains e.1) =
          true →
      ∀ c rt, spansLookup spans0 c = some rt →
        c < ff.2.1.length ∧ ff.2.1.getD c "" = rt.2 ∧
        (2 ≤ rt.1 → spansLookup ff.1 c = some (rt.1 - 1, rt.2)) ∧
        (rt.1 ≤ 1 → spansLookup ff.1 c = none)) ∧
    (∀ p ∈ stF.placements, p.row = idx ∧ p.col + p.cols ≤ ff.2.1.length ∧
      ∀ j, p.col ≤ j → j < p.col + p.cols →
        ff.2.1.getD j "" = p.text ∧
        (2 ≤ p.rows → spansLookup ff.1 j = some (p.rows - 1, p.text))) := by
  have hinv : RowInv spans0 idx stF := by
    rw [hstF]
    exact foldl_rowStep_inv spans0 idx cells _ (rowInv_init spans0 idx)
  obtain ⟨i1, i2, i3, i4⟩ := hinv
  have hffS : FillOut stF.spans stF.row stF.col ff := by
    rw [hff]
    exact fillSpan_spec stF.spans stF.row stF.col i1
  obtain ⟨fa, fb, -, fd, fe', fff⟩ := hffS
  constructor
  · intro hok c rt hlu
    have hmem : (c, rt) ∈ spans0 := spansLookup_mem spans0 c rt hlu
    have hcontains := (List.all_eq_true.mp hok) (c, rt) hmem
    have hcmem : c ∈ stF.consumed ++ List.range' stF.col (ff.2.2 - stF.col) :=
      contains_mem_nat _ _ hcontains
    cases List.mem_append.mp hcmem with
    | inl hold =>
        obtain ⟨hclt, rq, tq, hlu0, hrow, hs2, hs1⟩ := i3 c hold
        rw [hlu] at hlu0
        have hrt : rt = (rq, tq) := by injection hlu0
        subst hrt
        refine ⟨by omega, ?_, ?_, ?_⟩
        · show ff.2.1.getD c "" = tq
          rw [fe' c (by omega)]
          exact hrow
        · show 2 ≤ rq → spansLookup ff.1 c = some (rq - 1, tq)
          intro h2r
          rw [fd c (Or.inl (by omega))]
          exact hs2 h2r
        · show rq ≤ 1 → spansLookup ff.1 c = none
          intro h1r
          rw [fd c (Or.inl (by omega))]
          exact hs1 h1r
    | inr hnew =>
        obtain ⟨hq1, hq2⟩ := mem_range'_bounds _ _ _ hnew
        obtain ⟨rq, tq, hlu1, hrow, hs2, hs1⟩ := fff c (by omega) (by omega)
        rw [i2 c (by omega)] at hlu1
        rw [hlu] at hlu1
        have hrt : rt = (rq, tq) := by injection hlu1
        subst hrt
        exact ⟨by omega, hrow, hs2, hs1⟩
  · intro p hp
    obtain ⟨hprow, hple2, hcols⟩ := i4 p hp
    refine ⟨hprow, by omega, ?_⟩
    intro j hj1 hj2
    obtain ⟨hcell, hspan⟩ := hcols j hj1 hj2
    refine ⟨?_, ?_⟩
    · rw [fe' j (by omega)]
      exact hcell
    · intro h2r
      rw [fd j (Or.inl (by omega))]
      exact hspan h2r


lemma processRow_spec (cells : List HtmlCell) (idx : Nat)
    (spans0 : List (Nat × Nat × String)) :
    ProcOut spans0 idx (processRow cells idx spans0) :=
  processRow_core spans0 idx cells _ _ rfl rfl


lemma expandRows_cons_core (idx restLen : Nat)
    (out : List String) (placs : List Placement)
    (nextGrid : List (List String)) (nextPlacs : List Placement)
    (spans spansOut : List (Nat × Nat × String))
    (hPA : ∀ c rt, spansLookup spans c = some rt →
      c < out.length ∧ out.getD c "" = rt.2 ∧
      (2 ≤ rt.1 → spansLookup spansOut c = some (rt.1 - 1, rt.2)) ∧
      (rt.1 ≤ 1 → spansLookup spansOut c = none))
    (hPB : ∀ p ∈ placs, p.row = idx ∧ p.col + p.cols ≤ out.length ∧
      ∀ j, p.col ≤ j → j < p.col + p.cols →
        out.getD j "" = p.text ∧
        (2 ≤ p.rows → spansLookup spansOut j = some (p.rows - 1, p.text)))
    (hM1 : ∀ c rt, spansLookup spansOut c = some rt →
      ∀ k, k < rt.1 → k < restLen →
        c < (nextGrid.getD k []).length ∧ (nextGrid.getD k []).getD c "" = rt.2)
    (hM2 : ∀ p ∈ nextPlacs,
      idx + 1 ≤ p.row ∧ p.row < idx + 1 + restLen ∧
      ∀ i, p.row ≤ i → i < p.row + p.rows → i < idx + 1 + restLen →
        ∀ j, p.col ≤ j → j < p.col + p.cols →
          j < (nextGrid.getD (i - (idx + 1)) []).length ∧
          (nextGrid.getD (i - (idx + 1)) []).getD j "" = p.text) :
    (∀ c rt, spansLookup spans c = some rt →
      ∀ k, k < rt.1 → k < restLen + 1 →
        c < ((out :: nextGrid).getD k []).length ∧
        ((out :: nextGrid).getD k []).getD c "" = rt.2) ∧
    (∀ p ∈ placs ++ nextPlacs,
      idx ≤ p.row ∧ p.row < idx + (restLen + 1) ∧
      ∀ i, p.row ≤ i → i < p.row + p.rows → i < idx + (restLen + 1) →
        ∀ j, p.col ≤ j → j < p.col + p.cols →
          j < ((out :: nextGrid).getD (i - idx) []).length ∧
          ((out :: nextGrid).getD (i - idx) []).getD j "" = p.text) := by
  constructor
  · intro c rt hlu k hk1 hk2
    cases k with
    | zero =>
        obtain ⟨h1, h2, -, -⟩ := hPA c rt hlu
        rw [List.getD_cons_zero]
        exact ⟨h1, h2⟩
    | succ k =>
        obtain ⟨-, -, hs2, -⟩ := hPA c rt hlu
        have hlu2 : spansLookup spansOut c = some (rt.1 - 1, rt.2) :=
          hs2 (by omega)
        have hrec := hM1 c (rt.1 - 1, rt.2) hlu2 k (by omega) (by omega)
        rw [List.getD_cons_succ]
        exact hrec
  · intro p hp
    cases List.mem_append.mp hp with
    | inl hp0 =>
        obtain ⟨hprow, hple, hcols⟩ := hPB p hp0
        refine ⟨by omega, by omega, ?_⟩
        intro i hi1 hi2 hi3 j hj1 hj2
        by_cases hii : i = idx
        · have hz : i - idx = 0 := by omega
          rw [hz, List.getD_cons_zero]
          obtain ⟨hcell, -⟩ := hcols j hj1 hj2
          exact ⟨by omega, hcell⟩
        · have h2r : 2 ≤ p.rows := by omega
          obtain ⟨-, hspan⟩ := hcols j hj1 hj2
          have hrec := hM1 j (p.rows - 1, p.text) (hspan h2r) (i - idx - 1)
            (by omega) (by omega)
          have hidx : i - idx = (i - idx - 1) + 1 := by omega
          rw [hidx, List.getD_cons_succ]
          exact hrec
    | inr hp1 =>
        obtain ⟨h1, h2, hcols⟩ := hM2 p hp1
        refine ⟨by omega, by omega, ?_⟩
        intro i hi1 hi2 hi3 j hj1 hj2
        have hrec := hcols i hi1 hi2 (by omega) j hj1 hj2
        have hidx : i - idx = (i - (idx + 1)) + 1 := by omega
        rw [hidx, List.getD_cons_succ]
        exact hrec


lemma expandRows_spec :
    ∀ (rows : List (List HtmlCell)) (idx : Nat)
      (spans : List (Nat × Nat × String)),
      (expandRowsAux rows idx spans).2.2 = true →
      (∀ c rt, spansLookup spans c = some rt →
        ∀ k, k < rt.1 → k < rows.length →
          c < ((expandRowsAux rows idx spans).1.getD k []).length ∧
          ((expandRowsAux rows idx spans).1.getD k []).getD c "" = rt.2) ∧
      (∀ p ∈ (expandRowsAux rows idx spans).2.1,
        idx ≤ p.row ∧ p.row < idx + rows.length ∧
        ∀ i, p.row ≤ i → i < p.row + p.rows → i < idx + rows.length →
          ∀ j, p.col ≤ j → j < p.col + p.cols →
            j < ((expandRowsAux rows idx spans).1.getD (i - idx) []).length ∧
            ((expandRowsAux rows idx spans).1.getD (i - idx) []).getD j "" =
              p.text) := by
  intro rows
  induction rows with
  | nil =>
      intro idx spans _
      constructor
      · intro c rt hlu k hk1 hk2
        exact absurd hk2 (by simp)
      · intro p hp
        cases hp
  | cons r rest ih =>
      intro idx spans hok
      have hok12 : (processRow r idx spans).2.2.2 = true ∧
          (expandRowsAux rest (idx + 1) (processRow r idx spans).2.1).2.2 =
            true := (Bool.and_eq_true _ _).mp hok
      obtain ⟨hPA, hPB⟩ := processRow_spec r idx spans
      obtain ⟨hM1, hM2⟩ := ih (idx + 1) (processRow r idx spans).2.1 hok12.2
      exact expandRows_cons_core idx rest.length (processRow r idx spans).1
        (processRow r idx spans).2.2.1
        (expandRowsAux rest (idx + 1) (processRow r idx spans).2.1).1
        (expandRowsAux rest (idx + 1) (processRow r idx spans).2.1).2.1
        spans (processRow r idx spans).2.1 (hPA hok12.1) hPB hM1 hM2


lemma le_foldr_max : ∀ (l : List Nat) (x : Nat), x ∈ l → x ≤ l.foldr max 0 := by
  intro l
  induction l with
  | nil => intro x h; cases h
  | cons a rest ih =>
      intro x h
      rw [List.foldr_cons]
      cases h with
      | head => exact Nat.le_max_left _ _
      | tail _ h => exact Nat.le_trans (ih x h) (Nat.le_max_right _ _)


lemma expand_table_row_length (t : HtmlTable) :
    ∀ row ∈ expand_table t, row.length = gridWidth t := by
  intro row hrow
  have hexp : expand_table t = ((expandRowsAux t.rows 0 []).1).map
      (fun r => r ++ List.replicate (gridWidth t - r.length) "") := rfl
  rw [hexp] at hrow
  obtain ⟨raw, hraw, hmap⟩ := List.mem_map.mp hrow
  have hle : raw.length ≤ gridWidth t :=
    le_foldr_max ((expandRowsAux t.rows 0 []).1.map List.length) raw.length
      (List.mem_map_of_mem List.length hraw)
  rw [← hmap, List.length_append, List.length_replicate]
  omega


lemma getD_map_pad (grid : List (List String)) (W : Nat) (i : Nat)
    (h : i < grid.length) :
    (grid.map fun row => row ++ List.replicate (W - row.length) "").getD i [] =
      grid.getD i [] ++
        List.replicate (W - (grid.getD i []).length) "" := by
  have hg : grid.getD i [] = grid[i] := List.getD_eq_getElem grid [] h
  rw [hg, List.getD_eq_getElem?_getD, List.getElem?_map,
    List.getElem?_eq_getElem h]
  rfl


lemma expand_spanfill (t : HtmlTable) (hok : expandOk t = true) :
    SpanFillStmt t := by
  intro p hp i hi1 j hj1 hpi hpj hilen
  obtain ⟨-, hM2⟩ := expandRows_spec t.rows 0 [] hok
  obtain ⟨-, -, hcols⟩ := hM2 p hp
  have hibound : i < t.rows.length := by
    rw [expand_table_length] at hilen
    exact hilen
  have hrec := hcols i hpi hi1 (by omega) j hpj hj1
  have hrec1 : j < ((expandRowsAux t.rows 0 []).1.getD i []).length := hrec.1
  have hrec2 : ((expandRowsAux t.rows 0 []).1.getD i []).getD j "" = p.text :=
    hrec.2
  have hgl : i < (expandRowsAux t.rows 0 []).1.length := by
    rw [expandRowsAux_grid_length]
    exact hibound
  have hpad : (expand_table t).getD i [] =
      (expandRowsAux t.rows 0 []).1.getD i [] ++
        List.replicate
          (gridWidth t - ((expandRowsAux t.rows 0 []).1.getD i []).length)
          "" := getD_map_pad _ _ i hgl
  rw [hpad, getD_append_lt hrec1]
  exact hrec2


/-! Claim C1: grid shape and the span-fill invariant of `_expand_table`. -/


/-- C1 counterexample: an empty `tr` under a pending vertical row span.  The
cell "B" declares `rowspan="2"`, so its recorded footprint covers positions
(0,1) and (1,1); but the second `tr` has no cells, so its row loop never
reaches column 1 and the pending span is silently dropped - after padding,
position (1,1) holds "" instead of "B", refuting the unconditional span-fill
half of claim C1 (the equal-row-length half survives, see
`spec_c1_amended`). -/
theorem spec_c1_cex :
    expand_table spanCexTable = [["A", "B"], ["", ""]] ∧
    (⟨"B", 0, 1, 2, 1⟩ : Placement) ∈ expandPlacements spanCexTable ∧
    expandOk spanCexTable = false ∧
    ¬ SpanFillStmt spanCexTable := by
  refine ⟨by decide, by decide, by decide, ?_⟩
  intro hsf
  have h := hsf ⟨"B", 0, 1, 2, 1⟩ (by decide) 1 (by decide) 1 (by decide)
    (by decide) (by decide) (by decide)
  rw [show ((expand_table spanCexTable).getD 1 []).getD 1 "" = "" from
    by decide] at h
  exact absurd h (by decide)


/-- Claim C1, amended: for every table, every padded grid row of
`_expand_table` has exactly the maximal column count; and whenever the
expansion is well-formed (every pending vertical span is consumed in each
row it is due - in particular no empty or short `tr` under a pending span
and no cell overlapping one), every grid position inside a placed cell's
footprint (clipped to the grid) equals the origin cell's text. -/
theorem spec_c1_amended (t : HtmlTable) :
    (∀ row ∈ expand_table t, row.length = gridWidth t) ∧
    (expandOk t = true → SpanFillStmt t) :=
  ⟨expand_table_row_length t, fun hok => expand_spanfill t hok⟩


/-- C1 witness: the well-formed two-row table with a `rowspan="2"` cell
satisfies both halves of the amended claim, instantiated concretely. -/
theorem spec_c1_witness :
    expandOk spanWitTable = true ∧
    (∀ row ∈ expand_table spanWitTable,
      row.length = gridWidth spanWitTable) ∧
    SpanFillStmt spanWitTable :=
  ⟨by decide, (spec_c1_amended spanWitTable).1,
    (spec_c1_amended spanWitTable).2 (by decide)⟩

end Timetable
